import Mathlib

/-
  Verification development for the dss-reflux causal signal-and-reflex engine.

  Shallow embedding of the JavaScript sources:
    - index.js        : Strategist (JAMStore, pattern selector, consensus timing,
                        analyzeAndGenerateJam, detectAndEmit, generateVectorClock)
    - substrate.js    : Verification Oracle (analyzeContract) and, concatenated after
                        it, the semantic amplifier reflex worker (handleSignal)
    - update-gist.js  : Synchronization Bridge publisher (updateGist)

  JavaScript numbers that carry fractional values (scores, resonance, multipliers)
  are modelled over ℚ; timestamps and counters over ℕ; content hashes over ℕ with
  keccak256 treated as an external primitive supplied by the environment.
  External effects (RPC calls, DEX swaps, HTTP pushes) are modelled as oracle
  inputs in environment records, and the observable actions of a run are returned
  as explicit effect lists.
-/

/-! ## Golden-ratio constants (index.js lines 184-188) -/

def PHI : ℚ := 1.618033988749895

def PHI_INVERSE : ℚ := 0.618033988749895

def PHI_SQUARED : ℚ := 2.618033988749895

def EXPLORATION_BONUS : ℚ := 0.2

def COOLDOWN_PENALTY : ℚ := 0.3

/-! ## Pattern library (index.js lines 190-229) -/

structure ProverbStep where
  from_ : String
  to_ : String
  action : String
  actor : String
deriving DecidableEq, Repr

structure ProverbPattern where
  name : String
  steps : List ProverbStep
  baseResonance : ℚ
deriving DecidableEq, Repr

/-- The four fixed proverb patterns, in declaration order (JS object-key order,
which is the order `Object.entries` and hence the selector sees them in). -/
def PROVERB_PATTERNS : List (String × ProverbPattern) :=
  [ ("CLASSIC_ARBITRAGE",
      { name := "Classic Arbitrage",
        steps := [ { from_ := "WETH", to_ := "USDC", action := "SWAP", actor := "AMPLIFIER" },
                   { from_ := "USDC", to_ := "WETH", action := "SWAP", actor := "MIRROR" } ],
        baseResonance := PHI }),
    ("STABLE_ROTATION",
      { name := "Stable Rotation",
        steps := [ { from_ := "USDC", to_ := "DAI", action := "SWAP", actor := "AMPLIFIER" },
                   { from_ := "DAI", to_ := "USDC", action := "SWAP", actor := "MIRROR" } ],
        baseResonance := PHI_INVERSE }),
    ("YIELD_CAPTURE",
      { name := "Yield Capture",
        steps := [ { from_ := "WETH", to_ := "USDC", action := "SWAP", actor := "AMPLIFIER" },
                   { from_ := "USDC", to_ := "aUSDC", action := "DEPOSIT", actor := "MIRROR" } ],
        baseResonance := PHI_SQUARED }),
    ("LIQUIDITY_PROBE",
      { name := "Liquidity Probe",
        steps := [ { from_ := "WETH", to_ := "DAI", action := "SWAP", actor := "AMPLIFIER" },
                   { from_ := "DAI", to_ := "USDC", action := "SWAP", actor := "MIRROR" } ],
        baseResonance := 1 }) ]

/-! ## Pattern statistics and the selector (index.js lines 226-229, 592-623) -/

structure PatternStats where
  attempts : ℕ
  successes : ℕ
  lastUsed : ℕ
deriving DecidableEq, Repr

/-- Initial `metrics.patternSuccess`: every pattern starts at
`attempts 0, successes 0, lastUsed 0` (index.js lines 226-229). -/
def initPatternStats : List (String × PatternStats) :=
  PROVERB_PATTERNS.map (fun p => (p.1, { attempts := 0, successes := 0, lastUsed := 0 }))

/-- The five-minute cooldown between reuses of the same pattern (ms). -/
def COOLDOWN : ℕ := 300000

/-- Per-pattern score from `selectOptimalPattern` (index.js lines 600-607):
`successRate - cooldownPenalty + explorationBonus`, success rate defaulting to
1/2 at zero attempts.  JS computes `now - (stats.lastUsed || 0)` which may be
negative; a negative value is `< COOLDOWN` exactly as truncated ℕ subtraction
yields 0 `< COOLDOWN`, so the branch agrees. -/
def patternScore (now : ℕ) (s : PatternStats) : ℚ :=
  let successRate : ℚ := if s.attempts > 0 then (s.successes : ℚ) / (s.attempts : ℚ) else 1/2
  let cooldownPenalty : ℚ := if now - s.lastUsed < COOLDOWN then COOLDOWN_PENALTY else 0
  let explorationBonus : ℚ := if s.attempts < 5 then EXPLORATION_BONUS else 0
  successRate - cooldownPenalty + explorationBonus

/-- First maximal element of a scored list.  JS sorts with the comparator
`b.score - a.score` and takes element 0; `Array.prototype.sort` is stable, so
ties keep declaration order and element 0 is the first element attaining the
maximal score, which is what this fold computes (it replaces the running best
only on a strictly greater score). -/
def pickBest (x : String × ℚ) (xs : List (String × ℚ)) : String × ℚ :=
  xs.foldl (fun best y => if y.2 > best.2 then y else best) x

/-- `selectOptimalPattern` (index.js lines 595-614): score every pattern in
`metrics.patternSuccess`, pick the best, ties broken by declaration order. -/
def selectOptimalPattern (now : ℕ) (stats : List (String × PatternStats)) : Option String :=
  match stats.map (fun p => (p.1, patternScore now p.2)) with
  | [] => none
  | x :: xs => some (pickBest x xs).1

/-- `getPatternSuccessRate` (index.js lines 619-623): 1/2 when the pattern is
unknown or has zero attempts, else `successes / attempts`. -/
def getPatternSuccessRate (stats : List (String × PatternStats)) (p : String) : ℚ :=
  match stats.lookup p with
  | none => 1/2
  | some s => if s.attempts = 0 then 1/2 else (s.successes : ℚ) / (s.attempts : ℚ)

/-! ## Consensus-window timing (index.js lines 257-288) -/

def BASE_EMISSION_INTERVAL : ℕ := 900000

/-- Fibonacci sub-interval minutes (index.js line 243). -/
def SUBINTERVALS : List ℕ := [3, 5, 8, 13]

/-- `getConsensusMultiplier` (index.js lines 277-284) as a function of the
minimum distance (in minutes) to a consensus window. -/
def getConsensusMultiplier (minDistance : ℕ) : ℚ :=
  if minDistance ≤ 2 then PHI_SQUARED
  else if minDistance ≤ 5 then PHI
  else if minDistance ≤ 8 then PHI_INVERSE
  else if minDistance ≤ 13 then 1 / PHI_SQUARED
  else 1

/-- `isConsensusTime` (index.js lines 286-288). -/
def isConsensusTime (minDistance : ℕ) : Bool :=
  minDistance ≤ 2

/-! ## Recursive-pressure vector (index.js lines 686-718) -/

/-- `calculateVectorMagnitude` (index.js lines 689-701): recency-weighted mean of
the stored intensities, 0 when the vector is empty. -/
def calculateVectorMagnitude (intensities : List ℚ) : ℚ :=
  if intensities = [] then 0
  else
    let len : ℚ := (intensities.length : ℚ)
    let sum : ℚ :=
      (intensities.enum.map (fun p => p.2 * (((p.1 : ℚ) + 1) / len))).foldl (· + ·) 0
    sum / len

/-! ## Jam records and the JAMStore (index.js lines 13-73, 366-403, 748-768) -/

structure VectorClock where
  eth : ℕ
  bsv : ℕ
deriving DecidableEq, Repr

structure RecursiveTopology where
  eth : ℕ
  bsv : ℕ
  vectorClock : Option VectorClock
deriving DecidableEq, Repr

/-- A proverb step after positional merge with the oracle hooks
(index.js lines 335-338). -/
structure HookedStep where
  from_ : String
  to_ : String
  action : String
  actor : String
  hook : String
deriving DecidableEq, Repr

structure JamMeta where
  parentJam : Option ℕ
  audit_pass : Bool
  pattern_type : String
deriving DecidableEq, Repr

structure Jam where
  proverb : List HookedStep
  meta : JamMeta
  tags : List String
  recursiveTopology : RecursiveTopology
  cascadeDepth : ℕ
  resonance : ℚ
deriving DecidableEq, Repr

/-- The hash-keyed JAM store (index.js `JAMStore`), content hashes as ℕ. -/
def JAMStore := ℕ → Option Jam

/-- The empty store. -/
def emptyJAMStore : JAMStore := fun _ => none

/-- `JAMStore.store` (index.js lines 26-30): write the record under its hash. -/
def storePut (s : JAMStore) (h : ℕ) (j : Jam) : JAMStore :=
  fun k => if k = h then some j else s k

/-- `JAMStore.retrieve` (index.js lines 33-40). -/
def storeRetrieve (s : JAMStore) (h : ℕ) : Option Jam :=
  s h

/-- A partial update, one optional entry per top-level jam field; JS spreads
`{ ...existing, ...updates }`, so exactly the fields present in the update
replace the stored ones. -/
structure JamUpdate where
  proverb : Option (List HookedStep) := none
  meta : Option JamMeta := none
  tags : Option (List String) := none
  recursiveTopology : Option RecursiveTopology := none
  cascadeDepth : Option ℕ := none
  resonance : Option ℚ := none
deriving DecidableEq, Repr

/-- Shallow merge `{ ...existing, ...updates }` over the jam fields. -/
def mergeJam (j : Jam) (u : JamUpdate) : Jam :=
  { proverb := u.proverb.getD j.proverb,
    meta := u.meta.getD j.meta,
    tags := u.tags.getD j.tags,
    recursiveTopology := u.recursiveTopology.getD j.recursiveTopology,
    cascadeDepth := u.cascadeDepth.getD j.cascadeDepth,
    resonance := u.resonance.getD j.resonance }

/-- `JAMStore.update` (index.js lines 43-51): retrieve, shallow-merge, re-store
under the same hash; `none` and no write when the hash is absent. -/
def storeUpdate (s : JAMStore) (h : ℕ) (u : JamUpdate) : JAMStore × Option Jam :=
  match s h with
  | none => (s, none)
  | some j =>
      let updated := mergeJam j u
      (storePut s h updated, some updated)

/-! ## Vector clock and cascade depth (index.js lines 392-401, 748-768) -/

/-- `generateVectorClock` (index.js lines 751-768): copy the parent record's
clock when the parent resolves and carries one, else start at zero; then
increment the own-chain (`eth`) counter. -/
def generateVectorClock (s : JAMStore) (parentHash : Option ℕ) : VectorClock :=
  let clock : VectorClock :=
    match parentHash with
    | none => { eth := 0, bsv := 0 }
    | some h =>
        match storeRetrieve s h with
        | none => { eth := 0, bsv := 0 }
        | some pj =>
            match pj.recursiveTopology.vectorClock with
            | none => { eth := 0, bsv := 0 }
            | some vc => vc
  { eth := clock.eth + 1, bsv := clock.bsv }

/-- Cascade depth of a new jam (index.js line 401):
`lastHash ? (retrieve(lastHash)?.cascadeDepth || 0) + 1 : 1`. -/
def cascadeDepthOf (s : JAMStore) (lastHash : Option ℕ) : ℕ :=
  match lastHash with
  | none => 1
  | some h =>
      (match storeRetrieve s h with
       | none => 0
       | some pj => pj.cascadeDepth) + 1

/-- Own-chain vector-clock counter of a stored jam (0 if the record carries no
vector clock). -/
def vcEthOf (j : Jam) : ℕ :=
  match j.recursiveTopology.vectorClock with
  | none => 0
  | some vc => vc.eth

/-! ## Verification-oracle result and jam generation (index.js lines 297-428) -/

/-- The analysis record returned by `analyzeContract` (substrate.js), restricted
to the fields `analyzeAndGenerateJam` consumes.  `bait_hooks = none` models a
missing or non-array `bait_hooks` field. -/
structure Analysis where
  audit_pass : Bool
  bait_hooks : Option (List String)
deriving DecidableEq, Repr

/-- Inputs of one strategist analysis round: the oracle verdict plus the
wall-clock and history state the resonance formula reads. -/
structure StrategistCtx where
  analysis : Analysis
  minDistance : ℕ
  missedEmissions : ℕ
  intensities : List ℚ
  patternStats : List (String × PatternStats)
  now : ℕ
deriving Repr

/-- Base resonance of a pattern by id (0 for an unknown id; the ids produced by
the selector always resolve). -/
def patternBaseResonance (p : String) : ℚ :=
  match PROVERB_PATTERNS.lookup p with
  | none => 0
  | some pat => pat.baseResonance

/-- Steps of a pattern by id. -/
def patternSteps (p : String) : List ProverbStep :=
  match PROVERB_PATTERNS.lookup p with
  | none => []
  | some pat => pat.steps

/-- Positional merge of the chosen pattern's steps with the oracle hooks
(index.js lines 335-338): `hook = analysis.bait_hooks[index] || 'swap'`
(the JS `||` also replaces an empty string). -/
def engineerProverb (steps : List ProverbStep) (hooks : List String) : List HookedStep :=
  steps.enum.map (fun p =>
    let hk :=
      match hooks.get? p.1 with
      | none => "swap"
      | some h => if h = "" then "swap" else h
    { from_ := p.2.from_, to_ := p.2.to_, action := p.2.action, actor := p.2.actor, hook := hk })

/-- The clamped confidence of index.js lines 348-349:
`Math.min(0.99, base*(0.5 + successRate*0.5) + missed*0.1 + magnitude*0.05)`. -/
def adjustedConfidence (base successRate : ℚ) (missed : ℕ) (magnitude : ℚ) : ℚ :=
  min (99/100) (base * (1/2 + successRate * (1/2)) + (missed : ℚ) * (1/10) + magnitude * (1/20))

/-- The stored resonance of index.js line 352: the clamped confidence times the
consensus multiplier (note the clamp is applied before the multiplication). -/
def adaptiveResonance (base successRate : ℚ) (missed : ℕ) (magnitude mult : ℚ) : ℚ :=
  adjustedConfidence base successRate missed magnitude * mult

/-- `analyzeAndGenerateJam` (index.js lines 301-428), restricted to its pure
data flow: `none` when the audit fails or the hooks are missing/malformed
(lines 311-322), otherwise the assembled jam.  The keccak hash of the JSON
serialization is computed by the caller's environment (`hashOf`), so this
function returns the jam only. -/
def analyzeAndGenerateJam (ctx : StrategistCtx) (s : JAMStore) (lastHash : Option ℕ) :
    Option Jam :=
  if ¬ ctx.analysis.audit_pass then none
  else
    match ctx.analysis.bait_hooks with
    | none => none
    | some hooks =>
        match selectOptimalPattern ctx.now ctx.patternStats with
        | none => none
        | some selectedPattern =>
            let proverb := engineerProverb (patternSteps selectedPattern) hooks
            let successRate := getPatternSuccessRate ctx.patternStats selectedPattern
            let consensusMultiplier := getConsensusMultiplier ctx.minDistance
            let magnitude := calculateVectorMagnitude ctx.intensities
            let resonance :=
              adaptiveResonance (patternBaseResonance selectedPattern) successRate
                ctx.missedEmissions magnitude consensusMultiplier
            let vectorClock := generateVectorClock s lastHash
            some
              { proverb := proverb,
                meta :=
                  { parentJam := lastHash,
                    audit_pass := true,
                    pattern_type := selectedPattern },
                tags := [],
                recursiveTopology := { eth := 1, bsv := 0, vectorClock := some vectorClock },
                cascadeDepth := cascadeDepthOf s lastHash,
                resonance := resonance }

/-! ## On-chain submission and the emit cycle (index.js lines 430-590) -/

/-- `ethers.ZeroHash`, the all-zero bytes32, as a natural-number hash. -/
def ZERO_HASH : ℕ := 0

inductive EmitCall where
  | emitSignal (hash : ℕ)
  | emitRecursiveSignal (hash parentHash : ℕ)
deriving DecidableEq, Repr

/-- Choice of vault entry point (index.js lines 529-534):
`!lastHash || lastHash === ethers.ZeroHash` selects `emitSignal(hash)`, any
other parent selects `emitRecursiveSignal(hash, lastHash)`. -/
def chooseEmit (lastHash : Option ℕ) (hash : ℕ) : EmitCall :=
  match lastHash with
  | none => EmitCall.emitSignal hash
  | some p => if p = ZERO_HASH then EmitCall.emitSignal hash else EmitCall.emitRecursiveSignal hash p

/-- Externally observable strategist effects: a store write or an on-chain
submission through the vault. -/
inductive StratEffect where
  | storeWrite (hash : ℕ)
  | emit (call : EmitCall)
deriving DecidableEq, Repr

/-- Mutable strategist process state (index.js module-level variables
`isEmitting`, `lastEmissionTime`, `missedEmissions`,
`missedEmissionsVector.intensities`, `lastHash`, plus the JAM store). -/
structure StratState where
  isEmitting : Bool
  lastEmissionTime : ℕ
  missedEmissions : ℕ
  intensities : List ℚ
  lastHash : Option ℕ
  store : JAMStore

/-- Per-invocation environment of `detectAndEmit`: wall clock, the oracle
verdict, the `Math.random()` draw used by the probabilistic gate, and the
keccak256 content hash as an external primitive. -/
structure DetectEnv where
  currentTime : ℕ
  minutes : ℕ
  minDistance : ℕ
  rand : ℚ
  analysis : Analysis
  patternStats : List (String × PatternStats)
  hashOf : Jam → ℕ

/-- The analysis context `analyzeAndGenerateJam` reads at this invocation. -/
def ctxOfEnv (e : DetectEnv) (s : StratState) : StrategistCtx :=
  { analysis := e.analysis,
    minDistance := e.minDistance,
    missedEmissions := s.missedEmissions,
    intensities := s.intensities,
    patternStats := e.patternStats,
    now := e.currentTime }

/-- Fibonacci-aligned minute check (index.js line 447). -/
def isSubIntervalAt (minutes : ℕ) : Bool :=
  SUBINTERVALS.contains (minutes % 15)

/-- `adjustedInterval` (index.js lines 453-454):
`max(60000, Math.floor(BASE_EMISSION_INTERVAL / consensusMultiplier))`. -/
def adjustedInterval (minDistance : ℕ) : ℕ :=
  max 60000 (Int.toNat (Int.floor ((BASE_EMISSION_INTERVAL : ℚ) / getConsensusMultiplier minDistance)))

/-- The interval-skip guard (index.js line 457).  JS subtraction of timestamps
can be negative only when the clock runs backwards; then it is `< interval`
exactly as the truncated ℕ difference 0 is. -/
def timingSkip (e : DetectEnv) (s : StratState) : Bool :=
  ¬ isSubIntervalAt e.minutes ∧ s.lastEmissionTime > 0 ∧
    e.currentTime - s.lastEmissionTime < adjustedInterval e.minDistance

/-- `emissionProbability` (index.js line 483):
`0.3 + 0.7 * (multiplier - 1) / 1.618`. -/
def emissionProbability (minDistance : ℕ) : ℚ :=
  3/10 + (7/10) * (getConsensusMultiplier minDistance - 1) / (1.618 : ℚ)

/-- The probabilistic skip outside perfect alignment (index.js lines 477-495):
skip iff not aligned and the random draw fails and the minute is not a
Fibonacci sub-interval. -/
def probSkip (e : DetectEnv) : Bool :=
  ¬ isConsensusTime e.minDistance ∧
    ¬ (e.rand < emissionProbability e.minDistance ∨ isSubIntervalAt e.minutes)

/-- `detectAndEmit` (index.js lines 433-590), one invocation, sequentialized.
Control flow follows the statement order of the source: the re-entrancy guard,
the interval skip (which increments the missed counter and pushes the current
multiplier onto the pressure vector, then resets the flag), the probabilistic
skip (flag reset), then analysis.  A `null` analysis result returns with
`isEmitting` still `true` (index.js line 506 returns before the reset at line
589).  On the full success path the record is stored and then submitted with
`chooseEmit`; the trackers are updated (intensities keep their last 5 entries,
`slice(-5)`), `lastHash` advances, and the busy flag is released. -/
def detectAndEmit (e : DetectEnv) (s : StratState) : StratState × List StratEffect :=
  if s.isEmitting then (s, [])
  else if timingSkip e s then
    ({ s with
        missedEmissions := s.missedEmissions + 1,
        intensities := s.intensities ++ [getConsensusMultiplier e.minDistance],
        isEmitting := false }, [])
  else if probSkip e then ({ s with isEmitting := false }, [])
  else
    match analyzeAndGenerateJam (ctxOfEnv e s) s.store s.lastHash with
    | none => ({ s with isEmitting := true }, [])
    | some jam =>
        let h := e.hashOf jam
        ({ isEmitting := false,
           lastEmissionTime := e.currentTime,
           missedEmissions := 0,
           intensities := s.intensities.drop (s.intensities.length - 5),
           lastHash := some h,
           store := storePut s.store h jam },
         [StratEffect.storeWrite h, StratEffect.emit (chooseEmit s.lastHash h)])

/-- A sequence of `detectAndEmit` invocations, collecting all effects. -/
def runDetectMany : List DetectEnv → StratState → StratState × List StratEffect
  | [], s => (s, [])
  | e :: es, s =>
      let r := detectAndEmit e s
      let rest := runDetectMany es r.1
      (rest.1, r.2 ++ rest.2)

/-! ## Repeated strategist cycles (for the causal-chain properties) -/

/-- The part of the strategist state a generation cycle touches. -/
structure GenState where
  store : JAMStore
  lastHash : Option ℕ

/-- One successful-generation step of a cycle: generate, store under the
content hash, advance `lastHash` (index.js lines 505-560); a cycle whose
analysis returns `null` leaves the state unchanged. -/
def cycleStep (hashOf : Jam → ℕ) (ctx : StrategistCtx) (s : GenState) : GenState :=
  match analyzeAndGenerateJam ctx s.store s.lastHash with
  | none => s
  | some jam => { store := storePut s.store (hashOf jam) jam, lastHash := some (hashOf jam) }

/-- State before the n-th cycle of a run that starts from an empty store and no
parent. -/
def chainState (hashOf : Jam → ℕ) (ctxs : ℕ → StrategistCtx) : ℕ → GenState
  | 0 => { store := emptyJAMStore, lastHash := none }
  | n + 1 => cycleStep hashOf (ctxs n) (chainState hashOf ctxs n)

/-- The jam generated by the n-th cycle of the run (if any). -/
def chainJam (hashOf : Jam → ℕ) (ctxs : ℕ → StrategistCtx) (n : ℕ) : Option Jam :=
  analyzeAndGenerateJam (ctxs n) (chainState hashOf ctxs n).store (chainState hashOf ctxs n).lastHash

/-! ## The amplifier reflex worker (substrate.js lines 706-1379) -/

/-- The worker's view of a store record: the proverb step list and the (possibly
missing) meta block, as read back from the shared JAM store. -/
structure WorkerRecord where
  proverb : List HookedStep
  meta : Option JamMeta
  cascadeDepth : ℕ
deriving DecidableEq, Repr

/-- Execution-adapter actions a worker invocation can perform: the public bait
swap through the DEX cascade, and the balance hand-off to the mirror wallet. -/
inductive WorkerAction where
  | swap (hash : ℕ)
  | transferToMirror (hash : ℕ)
deriving DecidableEq, Repr

/-- External inputs of one `handleSignal` invocation: the registering
transaction, the store lookup for the event hash, the outcomes of the external
gates (token table lookup, semantic-legibility check), and the length of the
DEX cascade selected by `getRecursiveDEXCascade`. -/
structure WorkerEnv where
  ownEmitter : String
  txSender : Option String
  isFromVault : Bool
  vaultDecodeOk : Bool
  record : Option WorkerRecord
  tokenKnown : Bool
  semanticOk : Bool
  dexCount : ℕ
deriving Repr

/-- One iteration of the DEX-cascade loop body (substrate.js lines 862-1035).
Evaluating the bait-transaction argument object reads `encodedData`
(line 879) — an identifier never declared anywhere in the file — so the
iteration raises a ReferenceError while building the argument, before
`wallet.sendTransaction` is invoked: no adapter action is performed and the
error lands in the per-DEX `catch` (line 1024). -/
def dexAttempt : Except Unit (List WorkerAction) :=
  Except.error ()

/-- The DEX-cascade loop (lines 862-1034) over the `n` selected routers: each
attempt's error is caught and the next router is tried; when the last router
has also failed, the handler rethrows `All DEXes failed` (line 1031), which
propagates to the amplification `catch` at line 1361, so the post-loop
bait-hash validation, mirror transfer and recursive-emission code never runs.
An empty cascade leaves `swapTx` unset and fails the validation at line 1037
the same way. -/
def dexCascade : ℕ → Except Unit (List WorkerAction)
  | 0 => Except.error ()
  | n + 1 =>
      match dexAttempt with
      | Except.ok acts => Except.ok acts
      | Except.error _ => dexCascade n

/-- `handleSignal` (substrate.js lines 706-1379), one sequential invocation over
the process-local `isAmplifying` flag; returns the new flag and the adapter
actions performed.  Control flow follows the statement order of the source:
busy-skip; transaction lookup and sender filter (each releasing the lock on
their abort); the audit gate (lines 774-778: a missing record, missing meta or
failed audit aborts before any swap, returning from inside the handler without
reaching the release at line 1377); the amplifier-step lookup and gates; then
the DEX cascade.  Every cascade attempt throws on the undeclared `encodedData`
before `wallet.sendTransaction` (see `dexAttempt`), and the resulting
`All DEXes failed` error is caught at line 1361, after which the `break` at
line 1369 exits the retry loop and the lock is released at line 1377 — so the
entered-cascade path always ends `(false, [])`.  A hypothetical successful
attempt would return the bait swap it sent before breaking out of the loop;
the mirror transfer at line 1211 sits behind the read of the unassigned
`actualProfitRatio` (line 1139) and is dead in every case.  There is no
per-hash idempotency record anywhere in the handler: the only dedup state is
the boolean flag. -/
def handleSignal (e : WorkerEnv) (isAmplifying : Bool) (hash : ℕ) : Bool × List WorkerAction :=
  if isAmplifying then (true, [])
  else
    match e.txSender with
    | none => (false, [])
    | some sender =>
        if sender ≠ e.ownEmitter then (false, [])
        else if e.isFromVault ∧ ¬ e.vaultDecodeOk then (false, [])
        else
          match e.record with
          | none => (true, [])
          | some jamData =>
              match jamData.meta with
              | none => (true, [])
              | some m =>
                  if ¬ m.audit_pass then (true, [])
                  else
                    match jamData.proverb.find? (fun st => st.actor = "AMPLIFIER") with
                    | none => (true, [])
                    | some myStep =>
                        if myStep.action ≠ "SWAP" then (true, [])
                        else if ¬ e.tokenKnown then (true, [])
                        else if ¬ e.semanticOk then (true, [])
                        else
                          match dexCascade e.dexCount with
                          | Except.ok acts => (false, acts)
                          | Except.error _ => (false, [])

/-- Two (or more) sequential deliveries to the worker, collecting all adapter
actions. -/
def runWorkerMany : List WorkerEnv → Bool → ℕ → Bool × List WorkerAction
  | [], flag, _ => (flag, [])
  | e :: es, flag, hash =>
      let r := handleSignal e flag hash
      let rest := runWorkerMany es r.1 hash
      (rest.1, r.2 ++ rest.2)

/-! ## The gist publisher (update-gist.js lines 36-129) -/

/-- The ten-minute hard floor between external pushes (update-gist.js line 14). -/
def MIN_UPDATE_INTERVAL : ℕ := 600000

/-- Publisher process state: the re-entrancy flag and the time recorded at the
last successful (or rate-limited) push. -/
structure GistState where
  isUpdating : Bool
  lastUpdateTime : ℕ
deriving DecidableEq, Repr

/-- External inputs of one `updateGist` invocation: the wall clock at entry,
whether `latest-jam.json` is readable/non-empty/valid JSON, the API outcome,
and the wall clock when the API response lands (which is what
`lastUpdateTime = Date.now()` records on success). -/
structure GistEnv where
  now : ℕ
  fileOk : Bool
  pushOk : Bool
  rateLimited : Bool
  pushTime : ℕ
deriving DecidableEq, Repr

/-- `updateGist` (update-gist.js lines 37-129), one sequential invocation:
re-entrancy skip; the rate-limit floor (lines 44-49: return without pushing
when less than `MIN_UPDATE_INTERVAL` has elapsed since `lastUpdateTime`); file
validation skips; then the PATCH request — a 200 records `pushTime` and counts
as the one external push, a rate-limited 403 records `pushTime` without a
successful push, any other failure leaves the state unchanged after the retry
loop.  The `finally` block always clears `isUpdating`. -/
def updateGist (e : GistEnv) (s : GistState) : GistState × Bool :=
  if s.isUpdating then (s, false)
  else if e.now - s.lastUpdateTime < MIN_UPDATE_INTERVAL then (s, false)
  else if ¬ e.fileOk then (s, false)
  else if e.pushOk then ({ isUpdating := false, lastUpdateTime := e.pushTime }, true)
  else if e.rateLimited then ({ isUpdating := false, lastUpdateTime := e.pushTime }, false)
  else (s, false)

/-- A sequence of `updateGist` invocations, counting the external pushes. -/
def runGist : List GistEnv → GistState → GistState × ℕ
  | [], s => (s, 0)
  | e :: es, s =>
      let r := updateGist e s
      let rest := runGist es r.1
      (rest.1, (if r.2 then 1 else 0) + rest.2)

/-! ## The persisted JSON format (index.js lines 26-40)

`JAMStore.store` persists `JSON.stringify(jamData, null, 2)` and
`JAMStore.retrieve` reads it back through `JSON.parse`.  The JSON value space
is modelled by `Json` (numbers restricted to integers — IEEE doubles are out of
scope of the embedding), the serializer emits the compact form (the
2-space-indented form written by the source differs only by inserted
whitespace, which `JSON.parse` discards), and the parser accepts exactly the
compact form, escaping `"` and `\` as `JSON.stringify` does. -/

inductive Json where
  | null
  | bool (b : Bool)
  | num (n : ℤ)
  | str (s : List Char)
  | arr (elems : List Json)
  | obj (members : List (List Char × Json))
deriving Repr

def quoteChar : Char := Char.ofNat 34

def backslashChar : Char := Char.ofNat 92

def lbraceChar : Char := Char.ofNat 123

def rbraceChar : Char := Char.ofNat 125

def lbrackChar : Char := Char.ofNat 91

def rbrackChar : Char := Char.ofNat 93

def commaChar : Char := Char.ofNat 44

def colonChar : Char := Char.ofNat 58

def minusChar : Char := Char.ofNat 45

def digitCh (d : ℕ) : Char := Char.ofNat (48 + d)

def isDigitCh (c : Char) : Bool := 48 ≤ c.toNat && c.toNat ≤ 57

def digitVal (c : Char) : ℕ := c.toNat - 48

/-- Decimal digits of a natural number, most significant first. -/
def printNat (n : ℕ) : List Char :=
  if n = 0 then [digitCh 0] else (Nat.digits 10 n).reverse.map digitCh

/-- Decimal rendering of an integer. -/
def printInt (n : ℤ) : List Char :=
  if n < 0 then minusChar :: printNat n.natAbs else printNat n.toNat

/-- String-body escaping as performed by `JSON.stringify`: `"` and `\` get a
backslash prefix. -/
def escapeChar (c : Char) : List Char :=
  if c = quoteChar ∨ c = backslashChar then [backslashChar, c] else [c]

def escapeChars (s : List Char) : List Char :=
  (s.map escapeChar).flatten

mutual

/-- Compact `JSON.stringify` of a JSON value. -/
def serialize : Json → List Char
  | Json.null => ['n', 'u', 'l', 'l']
  | Json.bool true => ['t', 'r', 'u', 'e']
  | Json.bool false => ['f', 'a', 'l', 's', 'e']
  | Json.num n => printInt n
  | Json.str s => quoteChar :: (escapeChars s ++ [quoteChar])
  | Json.arr [] => [lbrackChar, rbrackChar]
  | Json.arr (x :: xs) => lbrackChar :: (serialize x ++ serializeArrTail xs)
  | Json.obj [] => [lbraceChar, rbraceChar]
  | Json.obj (kv :: kvs) => lbraceChar :: (serializeMember kv ++ serializeObjTail kvs)

def serializeArrTail : List Json → List Char
  | [] => [rbrackChar]
  | x :: xs => commaChar :: (serialize x ++ serializeArrTail xs)

def serializeMember : List Char × Json → List Char
  | (k, v) => quoteChar :: (escapeChars k ++ [quoteChar]) ++ (colonChar :: serialize v)

def serializeObjTail : List (List Char × Json) → List Char
  | [] => [rbraceChar]
  | kv :: kvs => commaChar :: (serializeMember kv ++ serializeObjTail kvs)

end

/-- Body of a JSON string after the opening quote: collect characters up to the
unescaped closing quote, a backslash taking the next character literally. -/
def parseStringBody : List Char → Option (List Char × List Char)
  | [] => none
  | c :: rest =>
      if c = quoteChar then some ([], rest)
      else if c = backslashChar then
        match rest with
        | [] => none
        | d :: rest2 =>
            match parseStringBody rest2 with
            | none => none
            | some (s, r) => some (d :: s, r)
      else
        match parseStringBody rest with
        | none => none
        | some (s, r) => some (c :: s, r)
termination_by l => l.length

/-- Maximal run of decimal digits, folded into an accumulator. -/
def parseDigitsAux (acc : ℕ) : List Char → ℕ × List Char
  | [] => (acc, [])
  | c :: rest =>
      if isDigitCh c then parseDigitsAux (acc * 10 + digitVal c) rest
      else (acc, c :: rest)

/-- A JSON number: optional minus sign followed by at least one digit. -/
def parseNum : List Char → Option (ℤ × List Char)
  | [] => none
  | c :: rest =>
      if c = minusChar then
        match rest with
        | [] => none
        | d :: _ =>
            if isDigitCh d then
              let r := parseDigitsAux 0 rest
              some (-(r.1 : ℤ), r.2)
            else none
      else if isDigitCh c then
        let r := parseDigitsAux 0 (c :: rest)
        some ((r.1 : ℤ), r.2)
      else none

mutual

/-- Fuel-bounded recursive-descent parser for the compact JSON form (the fuel
only bounds nesting work; `parseJson` supplies enough for any input). -/
def parseVal : ℕ → List Char → Option (Json × List Char)
  | 0, _ => none
  | fuel + 1, s =>
      match s with
      | [] => none
      | c :: rest =>
          if c = lbraceChar then
            match rest with
            | [] => none
            | d :: rest2 =>
                if d = rbraceChar then some (Json.obj [], rest2)
                else
                  match parseMembers fuel rest with
                  | none => none
                  | some (kvs, r) => some (Json.obj kvs, r)
          else if c = lbrackChar then
            match rest with
            | [] => none
            | d :: rest2 =>
                if d = rbrackChar then some (Json.arr [], rest2)
                else
                  match parseElems fuel rest with
                  | none => none
                  | some (xs, r) => some (Json.arr xs, r)
          else if c = quoteChar then
            match parseStringBody rest with
            | none => none
            | some (str, r) => some (Json.str str, r)
          else if c = 't' then
            match rest with
            | 'r' :: 'u' :: 'e' :: r => some (Json.bool true, r)
            | _ => none
          else if c = 'f' then
            match rest with
            | 'a' :: 'l' :: 's' :: 'e' :: r => some (Json.bool false, r)
            | _ => none
          else if c = 'n' then
            match rest with
            | 'u' :: 'l' :: 'l' :: r => some (Json.null, r)
            | _ => none
          else
            match parseNum (c :: rest) with
            | none => none
            | some (n, r) => some (Json.num n, r)

def parseElems : ℕ → List Char → Option (List Json × List Char)
  | 0, _ => none
  | fuel + 1, s =>
      match parseVal fuel s with
      | none => none
      | some (x, r) =>
          match r with
          | [] => none
          | c :: rest =>
              if c = commaChar then
                match parseElems fuel rest with
                | none => none
                | some (xs, r2) => some (x :: xs, r2)
              else if c = rbrackChar then some ([x], rest)
              else none

def parseMembers : ℕ → List Char → Option (List (List Char × Json) × List Char)
  | 0, _ => none
  | fuel + 1, s =>
      match s with
      | [] => none
      | c :: rest =>
          if c = quoteChar then
            match parseStringBody rest with
            | none => none
            | some (key, r) =>
                match r with
                | [] => none
                | c2 :: rest2 =>
                    if c2 = colonChar then
                      match parseVal fuel rest2 with
                      | none => none
                      | some (v, r2) =>
                          match r2 with
                          | [] => none
                          | c3 :: rest3 =>
                              if c3 = commaChar then
                                match parseMembers fuel rest3 with
                                | none => none
                                | some (kvs, r3) => some ((key, v) :: kvs, r3)
                              else if c3 = rbraceChar then some ([(key, v)], rest3)
                              else none
                    else none
          else none

end

/-- `JSON.parse` of a complete document: parse one value and require the input
to be exhausted. -/
def parseJson (s : List Char) : Option Json :=
  match parseVal (s.length + 1) s with
  | some (v, []) => some v
  | _ => none

/-! ## The JAM store at the persistence level (index.js lines 13-51) -/

/-- The on-disk `jams/` directory: serialized documents keyed by content hash. -/
def FileStore := ℕ → Option (List Char)

def emptyFileStore : FileStore := fun _ => none

/-- `JAMStore.store` at the persistence level: write
`JSON.stringify(jamData, ...)` under the hash key. -/
def fileStorePut (fs : FileStore) (h : ℕ) (x : Json) : FileStore :=
  fun k => if k = h then some (serialize x) else fs k

/-- `JAMStore.retrieve` at the persistence level: read the document back
through `JSON.parse`, `none` when the file is absent. -/
def fileStoreRetrieve (fs : FileStore) (h : ℕ) : Option Json :=
  match fs h with
  | none => none
  | some data => parseJson data

/- Parser fuel budget actually needed for a value (the measure that makes the
roundtrip induction go through). -/
mutual

def jsonCost : Json → ℕ
  | Json.null => 1
  | Json.bool _ => 1
  | Json.num _ => 1
  | Json.str _ => 1
  | Json.arr xs => 1 + jsonCostElems xs
  | Json.obj kvs => 1 + jsonCostMembers kvs

def jsonCostElems : List Json → ℕ
  | [] => 0
  | x :: xs => 1 + jsonCost x + jsonCostElems xs

def jsonCostMembers : List (List Char × Json) → ℕ
  | [] => 0
  | kv :: kvs => 1 + jsonCost kv.2 + jsonCostMembers kvs

end

/-! ## Remaining auxiliary definitions (delimiters, digit lists, fixtures) -/

/-- A tail that cannot continue a decimal literal (used to state that a
serialized number is followed by a delimiter). -/
def notNumCont (rest : List Char) : Prop :=
  match rest with
  | [] => True
  | c :: _ => isDigitCh c = false

/-- Delimiter requirement a serialized value places on what follows it: only a
number constrains its continuation. -/
def jsonDelim (x : Json) (rest : List Char) : Prop :=
  match x with
  | Json.num _ => notNumCont rest
  | _ => True

/-- Decimal digits of a natural number, most significant first, as numbers. -/
def digitList (n : ℕ) : List ℕ :=
  if n = 0 then [0] else (Nat.digits 10 n).reverse

/-- Concrete fixtures used by the witnesses and counterexamples below. -/

def auditFailAnalysis : Analysis := { audit_pass := false, bait_hooks := some ["swap"] }

def auditPassAnalysis : Analysis := { audit_pass := true, bait_hooks := some ["swap", "deposit"] }

def ctxPass : StrategistCtx :=
  { analysis := auditPassAnalysis, minDistance := 0, missedEmissions := 0,
    intensities := [], patternStats := initPatternStats, now := 0 }

def ctxFail : StrategistCtx := { ctxPass with analysis := auditFailAnalysis }

def stratState0 : StratState :=
  { isEmitting := false, lastEmissionTime := 0, missedEmissions := 0,
    intensities := [], lastHash := none, store := emptyJAMStore }

def detectEnvFail : DetectEnv :=
  { currentTime := 0, minutes := 0, minDistance := 0, rand := 0,
    analysis := auditFailAnalysis, patternStats := initPatternStats, hashOf := fun _ => 1 }

def detectEnvPass : DetectEnv := { detectEnvFail with analysis := auditPassAnalysis }

def constCtxs : ℕ → StrategistCtx := fun _ => ctxPass

def oneHashOf : Jam → ℕ := fun _ => 1

def passMeta : JamMeta :=
  { parentJam := none, audit_pass := true, pattern_type := "CLASSIC_ARBITRAGE" }

def failMeta : JamMeta :=
  { parentJam := none, audit_pass := false, pattern_type := "CLASSIC_ARBITRAGE" }

def amplifierStep : HookedStep :=
  { from_ := "WETH", to_ := "USDC", action := "SWAP", actor := "AMPLIFIER", hook := "swap" }

def goodWorkerRecord : WorkerRecord :=
  { proverb := [amplifierStep], meta := some passMeta, cascadeDepth := 1 }

def failWorkerRecord : WorkerRecord := { goodWorkerRecord with meta := some failMeta }

def goodWorkerEnv : WorkerEnv :=
  { ownEmitter := "wallet", txSender := some "wallet", isFromVault := true,
    vaultDecodeOk := true, record := some goodWorkerRecord, tokenKnown := true,
    semanticOk := true, dexCount := 3 }

def failWorkerEnv : WorkerEnv := { goodWorkerEnv with record := some failWorkerRecord }

def jamA : Jam :=
  { proverb := [amplifierStep], meta := passMeta, tags := [],
    recursiveTopology := { eth := 1, bsv := 0, vectorClock := some { eth := 1, bsv := 0 } },
    cascadeDepth := 1, resonance := 1 }

def updateB : JamUpdate := { meta := some failMeta }

def storeA : JAMStore := storePut emptyJAMStore 5 jamA

def gistState0 : GistState := { isUpdating := false, lastUpdateTime := 0 }

def gistEnvFirst : GistEnv :=
  { now := 600000, fileOk := true, pushOk := true, rateLimited := false, pushTime := 600001 }

def gistEnvsLater : List GistEnv :=
  [ { now := 700000, fileOk := true, pushOk := true, rateLimited := false, pushTime := 700001 },
    { now := 1100000, fileOk := true, pushOk := true, rateLimited := false, pushTime := 1100002 } ]

/-! ## Helper lemmas -/

theorem analyzeAndGenerateJam_none_of_audit_fail (ctx : StrategistCtx) (s : JAMStore)
    (lastHash : Option ℕ) (h : ctx.analysis.audit_pass = false) :
    analyzeAndGenerateJam ctx s lastHash = none := by
  simp [analyzeAndGenerateJam, h]

theorem analyzeAndGenerateJam_spec (ctx : StrategistCtx) (s : JAMStore) (lastHash : Option ℕ)
    (jam : Jam) (hgen : analyzeAndGenerateJam ctx s lastHash = some jam) :
    ∃ selectedPattern hooks,
      ctx.analysis.audit_pass = true ∧
      ctx.analysis.bait_hooks = some hooks ∧
      selectOptimalPattern ctx.now ctx.patternStats = some selectedPattern ∧
      jam = { proverb := engineerProverb (patternSteps selectedPattern) hooks,
              meta := { parentJam := lastHash, audit_pass := true,
                        pattern_type := selectedPattern },
              tags := [],
              recursiveTopology :=
                { eth := 1, bsv := 0, vectorClock := some (generateVectorClock s lastHash) },
              cascadeDepth := cascadeDepthOf s lastHash,
              resonance :=
                adaptiveResonance (patternBaseResonance selectedPattern)
                  (getPatternSuccessRate ctx.patternStats selectedPattern)
                  ctx.missedEmissions (calculateVectorMagnitude ctx.intensities)
                  (getConsensusMultiplier ctx.minDistance) } := by
  unfold analyzeAndGenerateJam at hgen
  by_cases haudit : ctx.analysis.audit_pass
  · rw [if_neg (by simp [haudit])] at hgen
    cases hhooks : ctx.analysis.bait_hooks with
    | none => rw [hhooks] at hgen; exact absurd hgen (by simp)
    | some hooks =>
        rw [hhooks] at hgen
        cases hsel : selectOptimalPattern ctx.now ctx.patternStats with
        | none => rw [hsel] at hgen; exact absurd hgen (by simp)
        | some selectedPattern =>
            rw [hsel] at hgen
            simp only [Option.some.injEq] at hgen
            exact ⟨selectedPattern, hooks, haudit, rfl, rfl, hgen.symm⟩
  · rw [if_pos (by simpa using haudit)] at hgen
    exact absurd hgen (by simp)

theorem runDetectMany_busy (es : List DetectEnv) (s : StratState) (h : s.isEmitting = true) :
    runDetectMany es s = (s, []) := by
  induction es with
  | nil => rfl
  | cons e es ih =>
      have hde : detectAndEmit e s = (s, []) := by
        unfold detectAndEmit
        rw [if_pos h]
      simp [runDetectMany, hde, ih]

theorem detectAndEmit_no_effects_of_none (e : DetectEnv) (s : StratState)
    (hnone : analyzeAndGenerateJam (ctxOfEnv e s) s.store s.lastHash = none) :
    (detectAndEmit e s).2 = [] ∧ (detectAndEmit e s).1.store = s.store := by
  unfold detectAndEmit
  cases hb : s.isEmitting
  · cases hts : timingSkip e s
    · cases hps : probSkip e
      · simp [hnone]
      · simp
    · simp
  · simp

/-! ## Claim theorems -/

/-- C1: whenever the audit result is not a pass — `audit_pass = false` on the
strategist side; a missing record, missing meta, or `audit_pass = false` on the
worker side — the strategist builds and submits nothing (`analyzeAndGenerateJam`
returns `none`, and `detectAndEmit` performs no store write and no
`emitSignal`/`emitRecursiveSignal` call), and the reflex worker performs no
execution-adapter action for the hash (`handleSignal` aborts before any swap). -/
theorem C1_audit_gating (e : DetectEnv) (s : StratState) (env : WorkerEnv) (flag : Bool)
    (h : ℕ)
    (haudit : e.analysis.audit_pass = false)
    (hrec : env.record = none ∨ (∃ r, env.record = some r ∧ r.meta = none) ∨
      ∃ r m, env.record = some r ∧ r.meta = some m ∧ m.audit_pass = false) :
    analyzeAndGenerateJam (ctxOfEnv e s) s.store s.lastHash = none ∧
    (detectAndEmit e s).2 = [] ∧ (detectAndEmit e s).1.store = s.store ∧
    (handleSignal env flag h).2 = [] := by
  have hnone : analyzeAndGenerateJam (ctxOfEnv e s) s.store s.lastHash = none :=
    analyzeAndGenerateJam_none_of_audit_fail _ _ _ (by simpa [ctxOfEnv] using haudit)
  refine ⟨hnone, (detectAndEmit_no_effects_of_none e s hnone).1,
    (detectAndEmit_no_effects_of_none e s hnone).2, ?_⟩
  unfold handleSignal
  cases flag
  · cases hsnd : env.txSender with
    | none => simp
    | some sender =>
        by_cases hs1 : sender ≠ env.ownEmitter
        · simp [hs1]
        · by_cases hs2 : env.isFromVault ∧ ¬ env.vaultDecodeOk
          · simp [hs1, hs2]
          · rcases hrec with h0 | ⟨r, hr, hm⟩ | ⟨r, m, hr, hm, ha⟩
            · simp [hsnd, hs1, hs2, h0]
              split <;> rfl
            · simp [hsnd, hs1, hs2, hr, hm]
              split <;> rfl
            · simp [hsnd, hs1, hs2, hr, hm, ha]
              split <;> rfl
  · simp

/-- C1 witness: the gating theorem applied to concrete audit-failing inputs. -/
theorem C1_audit_gating_witness :
    analyzeAndGenerateJam (ctxOfEnv detectEnvFail stratState0) stratState0.store
      stratState0.lastHash = none ∧
    (detectAndEmit detectEnvFail stratState0).2 = [] ∧
    (detectAndEmit detectEnvFail stratState0).1.store = stratState0.store ∧
    (handleSignal failWorkerEnv false 7).2 = [] :=
  C1_audit_gating detectEnvFail stratState0 failWorkerEnv false 7 rfl
    (Or.inr (Or.inr ⟨failWorkerRecord, failMeta, rfl, rfl, rfl⟩))

/-- C10: if an invocation of `detectAndEmit` passes the timing checks but the
analysis returns `null`, the function returns with the `isEmitting` busy flag
still set; from that state every subsequent invocation returns immediately at
the guard with no state change and no effects (no analysis result is ever
stored or submitted again).  Conversely a busy state short-circuits exactly as
the guard prescribes. -/
theorem C10_busy_flag_stuck (e : DetectEnv) (s : StratState) :
    (s.isEmitting = false →
      timingSkip e s = false →
      probSkip e = false →
      analyzeAndGenerateJam (ctxOfEnv e s) s.store s.lastHash = none →
      (detectAndEmit e s).1.isEmitting = true ∧ (detectAndEmit e s).2 = [] ∧
        ∀ es, runDetectMany es (detectAndEmit e s).1 = ((detectAndEmit e s).1, [])) ∧
    (s.isEmitting = true → detectAndEmit e s = (s, [])) := by
  constructor
  · intro hb hts hps hnone
    have hd : detectAndEmit e s =
        ({ s with isEmitting := true }, []) := by
      unfold detectAndEmit
      rw [if_neg (by simp [hb]), if_neg (by simp [hts]), if_neg (by simp [hps]), hnone]
    refine ⟨by rw [hd], by rw [hd], ?_⟩
    intro es
    rw [hd]
    exact runDetectMany_busy es _ rfl
  · intro hb
    unfold detectAndEmit
    rw [if_pos hb]

/-- C10 witness: the stuck-flag theorem at a concrete audit-failing cycle. -/
theorem C10_busy_flag_stuck_witness :
    (detectAndEmit detectEnvFail stratState0).1.isEmitting = true ∧
    (detectAndEmit detectEnvFail stratState0).2 = [] ∧
    ∀ es, runDetectMany es (detectAndEmit detectEnvFail stratState0).1 =
      ((detectAndEmit detectEnvFail stratState0).1, []) :=
  (C10_busy_flag_stuck detectEnvFail stratState0).1 rfl (by decide) (by decide) (by decide)

/-- The cascade fails on every router: each attempt throws on the undeclared
`encodedData` before the wallet call, and the empty cascade fails the
post-loop `swapTx` validation. -/
theorem dexCascade_error (n : ℕ) : dexCascade n = Except.error () := by
  induction n with
  | zero => rfl
  | succ n ih => simpa [dexCascade, dexAttempt] using ih

/-- No invocation of the handler performs an adapter action: every path either
aborts before the cascade, or enters the cascade, whose every attempt throws
on the undeclared `encodedData` before `wallet.sendTransaction`. -/
theorem handleSignal_actions_nil (e : WorkerEnv) (flag : Bool) (h : ℕ) :
    (handleSignal e flag h).2 = [] := by
  unfold handleSignal
  rw [dexCascade_error]
  repeat' split
  all_goals try rfl
  all_goals rename_i heq
  all_goals exact Except.noConfusion heq

/-- C2: delivering the same registration hash to a reflex worker twice — two
sequential `handleSignal` invocations with the same hash, the second starting
from the flag state the first left behind — results in at most one
execution-adapter action.  The bound holds in the degenerate form the source
forces: the handler keeps no per-hash idempotency set (its only dedup state is
the `isAmplifying` busy flag), but the cascade's bait transaction reads the
undeclared `encodedData` (substrate.js line 879) and throws before
`wallet.sendTransaction` on every DEX, so neither delivery — in fact no
delivery under any environment — performs any adapter action at all. -/
theorem C2_at_most_one_adapter_action (e1 e2 : WorkerEnv) (flag : Bool) (h : ℕ) :
    (runWorkerMany [e1, e2] flag h).2.length ≤ 1 ∧
    (runWorkerMany [e1, e2] flag h).2 = [] := by
  have h2 : (runWorkerMany [e1, e2] flag h).2 = [] := by
    simp [runWorkerMany, handleSignal_actions_nil]
  exact ⟨by rw [h2]; simp, h2⟩

/-- C5: the submission step uses the root entry point `emitSignal(hash)` exactly
when there is no parent (`lastHash` null or the zero hash) and the recursive
entry point `emitRecursiveSignal(hash, parentHash)` exactly when a parent hash
exists, never the other way around; and a full successful `detectAndEmit` cycle
emits precisely a store write followed by that submission. -/
theorem C5_emit_entrypoint (lastHash : Option ℕ) (h : ℕ) :
    ((lastHash = none ∨ lastHash = some ZERO_HASH) →
      chooseEmit lastHash h = EmitCall.emitSignal h) ∧
    (∀ p, lastHash = some p → p ≠ ZERO_HASH →
      chooseEmit lastHash h = EmitCall.emitRecursiveSignal h p) ∧
    (chooseEmit lastHash h = EmitCall.emitSignal h →
      lastHash = none ∨ lastHash = some ZERO_HASH) ∧
    (∀ p, chooseEmit lastHash h = EmitCall.emitRecursiveSignal h p →
      lastHash = some p ∧ p ≠ ZERO_HASH) ∧
    (∀ (e : DetectEnv) (s : StratState),
      s.isEmitting = false → timingSkip e s = false → probSkip e = false →
      (∃ jam, analyzeAndGenerateJam (ctxOfEnv e s) s.store s.lastHash = some jam) →
      ∃ jam, analyzeAndGenerateJam (ctxOfEnv e s) s.store s.lastHash = some jam ∧
        (detectAndEmit e s).2 =
          [StratEffect.storeWrite (e.hashOf jam),
           StratEffect.emit (chooseEmit s.lastHash (e.hashOf jam))]) := by
  refine ⟨?_, ?_, ?_, ?_, ?_⟩
  · rintro (rfl | rfl)
    · rfl
    · simp [chooseEmit]
  · rintro p rfl hp
    simp [chooseEmit, hp]
  · intro hc
    cases lastHash with
    | none => exact Or.inl rfl
    | some p =>
        by_cases hp : p = ZERO_HASH
        · exact Or.inr (by rw [hp])
        · simp [chooseEmit, hp] at hc
  · intro p hc
    cases lastHash with
    | none => simp [chooseEmit] at hc
    | some q =>
        by_cases hq : q = ZERO_HASH
        · simp [chooseEmit, hq] at hc
        · simp [chooseEmit, hq] at hc
          exact ⟨by rw [hc], hc ▸ hq⟩
  · rintro e s hb hts hps ⟨jam, hjam⟩
    refine ⟨jam, hjam, ?_⟩
    unfold detectAndEmit
    rw [if_neg (by simp [hb]), if_neg (by simp [hts]), if_neg (by simp [hps]), hjam]

/-- C5 witness: the entry-point dichotomy at concrete parents, and the effect
pair of a concrete successful cycle. -/
theorem C5_emit_entrypoint_witness :
    chooseEmit none 7 = EmitCall.emitSignal 7 ∧
    chooseEmit (some 3) 7 = EmitCall.emitRecursiveSignal 7 3 ∧
    ∃ jam, analyzeAndGenerateJam (ctxOfEnv detectEnvPass stratState0) stratState0.store
        stratState0.lastHash = some jam ∧
      (detectAndEmit detectEnvPass stratState0).2 =
        [StratEffect.storeWrite (detectEnvPass.hashOf jam),
         StratEffect.emit (chooseEmit stratState0.lastHash (detectEnvPass.hashOf jam))] :=
  ⟨(C5_emit_entrypoint none 7).1 (Or.inl rfl),
   (C5_emit_entrypoint (some 3) 7).2.1 3 rfl (by decide),
   (C5_emit_entrypoint none 0).2.2.2.2 detectEnvPass stratState0 rfl (by decide) (by decide)
     ⟨_, rfl⟩⟩

/-- C6 counterexample: `JAMStore.update` spreads the whole partial update over
the stored record, so an update that carries a `meta` field DOES mutate the
stored record's meta block — "steps, meta are never mutated by any update"
fails. -/
theorem C6_merge_counterexample :
    ((storeUpdate storeA 5 updateB).1 5).map Jam.meta = some failMeta ∧
    failMeta ≠ jamA.meta ∧ storeA 5 = some jamA := by
  refine ⟨by decide, by decide, by decide⟩

/-- C6 amended: the merge operation returns `absent` and writes nothing when the
hash is absent; when present it shallow-merges exactly the fields carried by
the partial update (any top-level field, identity fields included, is
overwritten when present in the update), always re-storing under the same hash
and leaving every other key untouched; in particular an update that carries no
`proverb` and no `meta` entry (as at the repository's only call site, which
merges `recursiveTopology` only) leaves the steps and meta unchanged. -/
theorem C6_merge_frame (s : JAMStore) (h : ℕ) (u : JamUpdate) :
    (s h = none → storeUpdate s h u = (s, none)) ∧
    (∀ j, s h = some j →
      (storeUpdate s h u).2 = some (mergeJam j u) ∧
      (storeUpdate s h u).1 h = some (mergeJam j u) ∧
      (∀ k, k ≠ h → (storeUpdate s h u).1 k = s k) ∧
      (u.proverb = none → (mergeJam j u).proverb = j.proverb) ∧
      (u.meta = none → (mergeJam j u).meta = j.meta)) := by
  constructor
  · intro habs
    unfold storeUpdate
    rw [habs]
  · intro j hj
    unfold storeUpdate
    rw [hj]
    refine ⟨rfl, by simp [storePut], fun k hk => by simp [storePut, hk], ?_, ?_⟩
    · intro hp; simp [mergeJam, hp]
    · intro hm; simp [mergeJam, hm]

/-- C6 witness: the frame conditions at a concrete store, hash and update. -/
theorem C6_merge_frame_witness :
    (storeUpdate storeA 9 updateB = (storeA, none)) ∧
    (storeUpdate storeA 5 updateB).2 = some (mergeJam jamA updateB) ∧
    (mergeJam jamA (⟨none, none, none, some ⟨1, 1, some ⟨1, 0⟩⟩, none, none⟩ : JamUpdate)).proverb =
      jamA.proverb :=
  ⟨(C6_merge_frame storeA 9 updateB).1 (by decide),
   ((C6_merge_frame storeA 5 updateB).2 jamA (by decide)).1,
   ((C6_merge_frame storeA 5
      (⟨none, none, none, some ⟨1, 1, some ⟨1, 0⟩⟩, none, none⟩ : JamUpdate)).2 jamA
      (by decide)).2.2.2.1 rfl⟩

theorem runGist_skip (es : List GistEnv) (s : GistState) (hbusy : s.isUpdating = false)
    (hwin : ∀ e ∈ es, e.now < s.lastUpdateTime + MIN_UPDATE_INTERVAL) :
    runGist es s = (s, 0) := by
  induction es with
  | nil => rfl
  | cons e es ih =>
      have hskip : updateGist e s = (s, false) := by
        unfold updateGist
        rw [if_neg (by simp [hbusy]), if_pos ?_]
        have := hwin e (by simp)
        unfold MIN_UPDATE_INTERVAL at this ⊢
        omega
      simp [runGist, hskip, ih (fun e he => hwin e (by simp [he]))]

/-- C8: starting from a state whose rate-limit floor has elapsed, a burst of
publish invocations whose later calls all fall within the minimum inter-update
interval of the first performs exactly one external push: the first invocation
pushes and records its completion time, every later invocation inside the
window returns at the rate-limit guard without pushing. -/
theorem C8_rate_limit_floor (e0 : GistEnv) (es : List GistEnv) (s0 : GistState)
    (hbusy : s0.isUpdating = false)
    (hfloor : ¬ e0.now - s0.lastUpdateTime < MIN_UPDATE_INTERVAL)
    (hfile : e0.fileOk = true) (hpush : e0.pushOk = true)
    (hresp : e0.now ≤ e0.pushTime)
    (hwin : ∀ e ∈ es, e.now < e0.now + MIN_UPDATE_INTERVAL) :
    (runGist (e0 :: es) s0).2 = 1 := by
  have hfirst : updateGist e0 s0 =
      ({ isUpdating := false, lastUpdateTime := e0.pushTime }, true) := by
    unfold updateGist
    rw [if_neg (by simp [hbusy]), if_neg hfloor, if_neg (by simp [hfile]),
      if_pos (by simp [hpush])]
  have hrest : runGist es { isUpdating := false, lastUpdateTime := e0.pushTime } =
      ({ isUpdating := false, lastUpdateTime := e0.pushTime }, 0) := by
    refine runGist_skip es _ rfl ?_
    intro e he
    have := hwin e he
    show e.now < e0.pushTime + MIN_UPDATE_INTERVAL
    omega
  simp [runGist, hfirst, hrest]

/-- C8 witness: the rate-limit floor theorem at a concrete burst of three
invocations inside one window. -/
theorem C8_rate_limit_floor_witness :
    (runGist (gistEnvFirst :: gistEnvsLater) gistState0).2 = 1 :=
  C8_rate_limit_floor gistEnvFirst gistEnvsLater gistState0 rfl (by decide) rfl rfl
    (by decide) (by decide)

theorem storeRetrieve_storePut_self (s : JAMStore) (h : ℕ) (j : Jam) :
    storeRetrieve (storePut s h j) h = some j := by
  simp [storeRetrieve, storePut]

theorem chainJam_fields (hashOf : Jam → ℕ) (ctxs : ℕ → StrategistCtx) (n : ℕ) (jn : Jam)
    (h : chainJam hashOf ctxs n = some jn) :
    jn.cascadeDepth =
      cascadeDepthOf (chainState hashOf ctxs n).store (chainState hashOf ctxs n).lastHash ∧
    jn.recursiveTopology.vectorClock =
      some (generateVectorClock (chainState hashOf ctxs n).store
        (chainState hashOf ctxs n).lastHash) ∧
    jn.meta.parentJam = (chainState hashOf ctxs n).lastHash := by
  obtain ⟨p, hooks, _, _, _, hj⟩ := analyzeAndGenerateJam_spec _ _ _ _ h
  subst hj
  exact ⟨rfl, rfl, rfl⟩

theorem chainState_succ (hashOf : Jam → ℕ) (ctxs : ℕ → StrategistCtx) (n : ℕ) (jn : Jam)
    (h : chainJam hashOf ctxs n = some jn) :
    chainState hashOf ctxs (n + 1) =
      { store := storePut (chainState hashOf ctxs n).store (hashOf jn) jn,
        lastHash := some (hashOf jn) } := by
  show cycleStep hashOf (ctxs n) (chainState hashOf ctxs n) = _
  unfold chainJam at h
  unfold cycleStep
  rw [h]

/-- C4: along a chain of records generated by repeated successful cycles, each
child's `cascadeDepth` is its parent's plus one (so the n-th record has depth
n+1, starting at 1), each child's own-chain vector-clock counter is the
parent's plus one, the child's `parentJam` is the parent's hash; and a record
generated with no resolvable parent (no `lastHash`, or a `lastHash` absent from
the store) has `cascadeDepth = 1`. -/
theorem C4_depth_vector_clock (hashOf : Jam → ℕ) (ctxs : ℕ → StrategistCtx)
    (hok : ∀ n, ∃ j, chainJam hashOf ctxs n = some j) :
    (∀ n j, chainJam hashOf ctxs n = some j →
      j.cascadeDepth = n + 1 ∧ vcEthOf j = n + 1) ∧
    (∀ n jn jn1, chainJam hashOf ctxs n = some jn →
      chainJam hashOf ctxs (n + 1) = some jn1 →
      jn1.cascadeDepth = jn.cascadeDepth + 1 ∧ vcEthOf jn1 = vcEthOf jn + 1 ∧
      jn1.meta.parentJam = some (hashOf jn)) ∧
    (∀ ctx s j, analyzeAndGenerateJam ctx s none = some j → j.cascadeDepth = 1) ∧
    (∀ ctx s ph j, analyzeAndGenerateJam ctx s (some ph) = some j → s ph = none →
      j.cascadeDepth = 1) := by
  have step : ∀ n jn jn1, chainJam hashOf ctxs n = some jn →
      chainJam hashOf ctxs (n + 1) = some jn1 →
      jn1.cascadeDepth = jn.cascadeDepth + 1 ∧ vcEthOf jn1 = vcEthOf jn + 1 ∧
      jn1.meta.parentJam = some (hashOf jn) := by
    intro n jn jn1 hn hn1
    obtain ⟨hd1, hv1, hp1⟩ := chainJam_fields hashOf ctxs (n + 1) jn1 hn1
    obtain ⟨hd0, hv0, hp0⟩ := chainJam_fields hashOf ctxs n jn hn
    rw [chainState_succ hashOf ctxs n jn hn] at hd1 hv1 hp1
    have hret := storeRetrieve_storePut_self (chainState hashOf ctxs n).store (hashOf jn) jn
    refine ⟨?_, ?_, hp1⟩
    · rw [hd1]
      simp [cascadeDepthOf, hret]
    · cases hvc : jn.recursiveTopology.vectorClock with
      | none => rw [hvc] at hv0; exact absurd hv0 (by simp)
      | some vc =>
          have hv1eq : jn1.recursiveTopology.vectorClock =
              some { eth := vc.eth + 1, bsv := vc.bsv } := by
            rw [hv1]
            simp [generateVectorClock, hret, hvc]
          unfold vcEthOf
          rw [hv1eq, hvc]
  refine ⟨?_, step, ?_, ?_⟩
  · intro n
    induction n with
    | zero =>
        intro j h0
        obtain ⟨hd, hv, _⟩ := chainJam_fields hashOf ctxs 0 j h0
        constructor
        · rw [hd]; rfl
        · unfold vcEthOf
          rw [hv]
          rfl
    | succ n ih =>
        intro j h1
        obtain ⟨jn, hn⟩ := hok n
        obtain ⟨hd, hv, _⟩ := step n jn j hn h1
        obtain ⟨ihd, ihv⟩ := ih jn hn
        omega
  · intro ctx s j hgen
    obtain ⟨p, hooks, _, _, _, hj⟩ := analyzeAndGenerateJam_spec _ _ _ _ hgen
    subst hj
    rfl
  · intro ctx s ph j hgen habs
    obtain ⟨p, hooks, _, _, _, hj⟩ := analyzeAndGenerateJam_spec _ _ _ _ hgen
    subst hj
    show cascadeDepthOf s (some ph) = 1
    simp [cascadeDepthOf, storeRetrieve, habs]

theorem ctxPass_gen (s : JAMStore) (lastHash : Option ℕ) :
    ∃ j, analyzeAndGenerateJam ctxPass s lastHash = some j :=
  ⟨_, rfl⟩

/-- C4 witness: the chain theorem evaluated on a concrete two-cycle run. -/
theorem C4_depth_vector_clock_witness :
    ∃ j0 j1, chainJam oneHashOf constCtxs 0 = some j0 ∧
      chainJam oneHashOf constCtxs 1 = some j1 ∧
      j0.cascadeDepth = 1 ∧ vcEthOf j0 = 1 ∧ j1.cascadeDepth = 2 ∧ vcEthOf j1 = 2 := by
  have hok : ∀ n, ∃ j, chainJam oneHashOf constCtxs n = some j := fun n =>
    ctxPass_gen (chainState oneHashOf constCtxs n).store (chainState oneHashOf constCtxs n).lastHash
  obtain ⟨j0, h0⟩ := hok 0
  obtain ⟨j1, h1⟩ := hok 1
  have H := C4_depth_vector_clock oneHashOf constCtxs hok
  exact ⟨j0, j1, h0, h1, (H.1 0 j0 h0).1, (H.1 0 j0 h0).2, (H.1 1 j1 h1).1, (H.1 1 j1 h1).2⟩


theorem getConsensusMultiplier_pos (d : ℕ) : 0 < getConsensusMultiplier d := by
  unfold getConsensusMultiplier
  split_ifs <;> norm_num [PHI, PHI_INVERSE, PHI_SQUARED]

theorem getConsensusMultiplier_le (d : ℕ) : getConsensusMultiplier d ≤ PHI_SQUARED := by
  unfold getConsensusMultiplier
  split_ifs <;> norm_num [PHI, PHI_INVERSE, PHI_SQUARED]

theorem patternBaseResonance_nonneg (p : String) : 0 ≤ patternBaseResonance p := by
  unfold patternBaseResonance
  cases hl : PROVERB_PATTERNS.lookup p with
  | none => norm_num
  | some pat =>
      obtain ⟨l1, l2, hdec, _⟩ := List.lookup_eq_some_iff.1 hl
      have hmem : (p, pat) ∈ PROVERB_PATTERNS := by
        rw [hdec]
        exact List.mem_append_right _ (List.mem_cons_self _ _)
      simp only [PROVERB_PATTERNS, List.mem_cons, List.not_mem_nil, or_false,
        Prod.mk.injEq] at hmem
      rcases hmem with ⟨_, rfl⟩ | ⟨_, rfl⟩ | ⟨_, rfl⟩ | ⟨_, rfl⟩ <;>
        norm_num [PHI, PHI_INVERSE, PHI_SQUARED]

theorem getPatternSuccessRate_nonneg (stats : List (String × PatternStats)) (p : String) :
    0 ≤ getPatternSuccessRate stats p := by
  unfold getPatternSuccessRate
  cases hl : stats.lookup p with
  | none => norm_num
  | some s =>
      by_cases ha : s.attempts = 0
      · simp [ha]
      · simp only [ha, if_false]
        positivity

theorem foldl_add_nonneg (l : List ℚ) (acc : ℚ) (hacc : 0 ≤ acc)
    (h : ∀ x ∈ l, 0 ≤ x) : 0 ≤ l.foldl (· + ·) acc := by
  induction l generalizing acc with
  | nil => exact hacc
  | cons x l ih =>
      exact ih (acc + x) (add_nonneg hacc (h x (by simp))) (fun y hy => h y (by simp [hy]))

theorem calculateVectorMagnitude_nonneg (l : List ℚ) (h : ∀ q ∈ l, 0 ≤ q) :
    0 ≤ calculateVectorMagnitude l := by
  unfold calculateVectorMagnitude
  split_ifs with hnil
  · exact le_refl 0
  · have hlen : (0 : ℚ) < (l.length : ℚ) := by
      have : l.length ≠ 0 := fun hc => hnil (List.length_eq_zero.1 hc)
      exact_mod_cast Nat.pos_of_ne_zero this
    apply div_nonneg _ (le_of_lt hlen)
    apply foldl_add_nonneg _ _ (le_refl 0)
    intro x hx
    simp only [List.mem_map] at hx
    obtain ⟨q, hq, rfl⟩ := hx
    have hq2 : q.2 ∈ l := by
      have := List.mem_enum_iff_getElem?.1 hq
      exact List.getElem?_mem this
    apply mul_nonneg (h q.2 hq2)
    apply div_nonneg _ (le_of_lt hlen)
    positivity

theorem adjustedConfidence_le (base successRate : ℚ) (missed : ℕ) (magnitude : ℚ) :
    adjustedConfidence base successRate missed magnitude ≤ 99/100 :=
  min_le_left _ _

theorem adjustedConfidence_nonneg (base successRate magnitude : ℚ) (missed : ℕ)
    (hb : 0 ≤ base) (hs : 0 ≤ successRate) (hm : 0 ≤ magnitude) :
    0 ≤ adjustedConfidence base successRate missed magnitude := by
  unfold adjustedConfidence
  apply le_min (by norm_num)
  have h1 : 0 ≤ base * (1/2 + successRate * (1/2)) := mul_nonneg hb (by linarith)
  have h2 : 0 ≤ (missed : ℚ) * (1/10) := by positivity
  have h3 : 0 ≤ magnitude * (1/20) := mul_nonneg hm (by norm_num)
  linarith

theorem selectOptimalPattern_init (now : ℕ) :
    selectOptimalPattern now initPatternStats = some "CLASSIC_ARBITRAGE" := by
  simp [selectOptimalPattern, initPatternStats, PROVERB_PATTERNS, pickBest,
    lt_self_iff_false]

/-- C3 counterexample: index.js clamps the confidence BEFORE multiplying by the
consensus multiplier, so the stored resonance exceeds 0.99 whenever the
multiplier exceeds 1: a concrete cycle inside an alignment window (distance 0,
multiplier φ²) yields `resonance = 0.99 · φ² ≈ 2.592`, refuting
"resonance ∈ [0, 0.99]". -/
theorem C3_resonance_counterexample :
    ∃ jam, analyzeAndGenerateJam ctxPass emptyJAMStore none = some jam ∧
      99/100 < jam.resonance := by
  obtain ⟨jam, hjam⟩ := ctxPass_gen emptyJAMStore none
  refine ⟨jam, hjam, ?_⟩
  obtain ⟨p, hooks, _, hhooks, hsel, hj⟩ := analyzeAndGenerateJam_spec _ _ _ _ hjam
  have hp : p = "CLASSIC_ARBITRAGE" := by
    have hs0 : selectOptimalPattern ctxPass.now ctxPass.patternStats =
        some "CLASSIC_ARBITRAGE" := selectOptimalPattern_init ctxPass.now
    rw [hs0] at hsel
    exact (Option.some.inj hsel).symm
  subst hp
  subst hj
  show 99/100 < adaptiveResonance (patternBaseResonance "CLASSIC_ARBITRAGE")
    (getPatternSuccessRate ctxPass.patternStats "CLASSIC_ARBITRAGE")
    ctxPass.missedEmissions (calculateVectorMagnitude ctxPass.intensities)
    (getConsensusMultiplier ctxPass.minDistance)
  have h1 : patternBaseResonance "CLASSIC_ARBITRAGE" = PHI := rfl
  have h2 : getPatternSuccessRate ctxPass.patternStats "CLASSIC_ARBITRAGE" = 1/2 := rfl
  have h3 : calculateVectorMagnitude ctxPass.intensities = 0 := rfl
  have h4 : getConsensusMultiplier ctxPass.minDistance = PHI_SQUARED := rfl
  have h5 : ctxPass.missedEmissions = 0 := rfl
  rw [h1, h2, h3, h4, h5]
  unfold adaptiveResonance adjustedConfidence
  rw [min_def]
  split_ifs with hc
  · norm_num [PHI_SQUARED]
  · exfalso
    apply hc
    norm_num [PHI]

/-- C3 amended: the value the source clamps to at most 0.99 is the
pre-multiplier confidence; the stored resonance is that clamped confidence
times the consensus multiplier and therefore lies in `[0, 0.99 · φ²]`
(≈ 2.592), not in `[0, 0.99]`. -/
theorem C3_resonance_bounds (ctx : StrategistCtx) (s : JAMStore) (lastHash : Option ℕ)
    (jam : Jam) (hint : ∀ q ∈ ctx.intensities, 0 ≤ q)
    (hgen : analyzeAndGenerateJam ctx s lastHash = some jam) :
    0 ≤ jam.resonance ∧ jam.resonance ≤ 99/100 * PHI_SQUARED ∧
    (∀ base successRate magnitude missed,
      adjustedConfidence base successRate missed magnitude ≤ 99/100) := by
  obtain ⟨p, hooks, _, _, _, hj⟩ := analyzeAndGenerateJam_spec _ _ _ _ hgen
  subst hj
  have hadjle := adjustedConfidence_le (patternBaseResonance p)
    (getPatternSuccessRate ctx.patternStats p) ctx.missedEmissions
    (calculateVectorMagnitude ctx.intensities)
  have hadjnn := adjustedConfidence_nonneg (patternBaseResonance p)
    (getPatternSuccessRate ctx.patternStats p) (calculateVectorMagnitude ctx.intensities)
    ctx.missedEmissions (patternBaseResonance_nonneg p)
    (getPatternSuccessRate_nonneg ctx.patternStats p)
    (calculateVectorMagnitude_nonneg ctx.intensities hint)
  have hmpos := getConsensusMultiplier_pos ctx.minDistance
  have hmle := getConsensusMultiplier_le ctx.minDistance
  refine ⟨?_, ?_, fun base successRate magnitude missed => adjustedConfidence_le _ _ _ _⟩
  · exact mul_nonneg hadjnn (le_of_lt hmpos)
  · exact mul_le_mul hadjle hmle (le_of_lt hmpos) (by norm_num)

/-- C3 witness: the amended bounds at a concrete generated record. -/
theorem C3_resonance_bounds_witness :
    ∃ jam, analyzeAndGenerateJam ctxPass emptyJAMStore none = some jam ∧
      0 ≤ jam.resonance ∧ jam.resonance ≤ 99/100 * PHI_SQUARED := by
  obtain ⟨jam, hjam⟩ := ctxPass_gen emptyJAMStore none
  have H := C3_resonance_bounds ctxPass emptyJAMStore none jam (by simp [ctxPass]) hjam
  exact ⟨jam, hjam, H.1, H.2.1⟩

theorem pickBest_spec (x : String × ℚ) (xs : List (String × ℚ)) :
    ∃ l1 l2, x :: xs = l1 ++ pickBest x xs :: l2 ∧
      (∀ r ∈ l1, r.2 < (pickBest x xs).2) ∧
      ∀ r ∈ x :: xs, r.2 ≤ (pickBest x xs).2 := by
  induction xs generalizing x with
  | nil =>
      refine ⟨[], [], rfl, by simp, ?_⟩
      intro r hr
      rcases List.mem_cons.1 hr with rfl | hr2
      · exact le_refl _
      · exact absurd hr2 (List.not_mem_nil r)
  | cons y ys ih =>
      have hstep : pickBest x (y :: ys) = pickBest (if y.2 > x.2 then y else x) ys := rfl
      by_cases hyx : y.2 > x.2
      · rw [hstep, if_pos hyx]
        obtain ⟨l1, l2, hdec, hlt, hle⟩ := ih y
        have hyb : y.2 ≤ (pickBest y ys).2 := hle y (List.mem_cons_self y ys)
        refine ⟨x :: l1, l2, ?_, ?_, ?_⟩
        · rw [List.cons_append, ← hdec]
        · intro r hr
          rcases List.mem_cons.1 hr with rfl | hr2
          · exact lt_of_lt_of_le hyx hyb
          · exact hlt r hr2
        · intro r hr
          rcases List.mem_cons.1 hr with rfl | hr2
          · exact le_of_lt (lt_of_lt_of_le hyx hyb)
          · exact hle r hr2
      · rw [hstep, if_neg hyx]
        push_neg at hyx
        obtain ⟨l1, l2, hdec, hlt, hle⟩ := ih x
        cases l1 with
        | nil =>
            simp only [List.nil_append] at hdec
            have hb : pickBest x ys = x := (List.cons.inj hdec).1.symm
            have hys : ys = l2 := (List.cons.inj hdec).2
            refine ⟨[], y :: ys, by rw [List.nil_append, hb], by simp, ?_⟩
            intro r hr
            rcases List.mem_cons.1 hr with rfl | hr2
            · rw [hb]
            · rcases List.mem_cons.1 hr2 with rfl | hr3
              · rw [hb]; exact hyx
              · exact hle r (List.mem_cons_of_mem x hr3)
        | cons a l1t =>
            simp only [List.cons_append] at hdec
            have hax : a = x := ((List.cons.inj hdec).1).symm
            have hys : ys = l1t ++ pickBest x ys :: l2 := (List.cons.inj hdec).2
            have hxlt : x.2 < (pickBest x ys).2 := by
              have := hlt a (List.mem_cons_self a l1t)
              rwa [hax] at this
            refine ⟨x :: y :: l1t, l2, ?_, ?_, ?_⟩
            · rw [List.cons_append, List.cons_append, ← hys]
            · intro r hr
              rcases List.mem_cons.1 hr with rfl | hr2
              · exact hxlt
              · rcases List.mem_cons.1 hr2 with rfl | hr3
                · exact lt_of_le_of_lt hyx hxlt
                · exact hlt r (List.mem_cons_of_mem a hr3)
            · intro r hr
              rcases List.mem_cons.1 hr with rfl | hr2
              · exact le_of_lt hxlt
              · rcases List.mem_cons.1 hr2 with rfl | hr3
                · exact le_of_lt (lt_of_le_of_lt hyx hxlt)
                · exact hle r (List.mem_cons_of_mem x hr3)

/-- C7: per-pattern scoring is `successRate - cooldownPenalty + explorationBonus`
(success rate 1/2 at zero attempts, cooldown penalty only inside the 5-minute
window, exploration bonus only below 5 attempts); the selector returns the
highest-scoring pattern with ties broken by first-declared order (the returned
pattern is the first entry attaining the maximal score); the selector is a pure
function of the statistics snapshot; and with the all-equal zero-attempt
initial statistics it deterministically selects the first-declared pattern,
CLASSIC_ARBITRAGE. -/
theorem C7_pattern_selection :
    (∀ now s, patternScore now s =
      (if s.attempts > 0 then (s.successes : ℚ) / (s.attempts : ℚ) else 1/2) -
        (if now - s.lastUsed < COOLDOWN then COOLDOWN_PENALTY else 0) +
        (if s.attempts < 5 then EXPLORATION_BONUS else 0)) ∧
    (∀ now stats p, selectOptimalPattern now stats = some p →
      ∃ l1 q l2, stats.map (fun e => (e.1, patternScore now e.2)) = l1 ++ q :: l2 ∧
        q.1 = p ∧ (∀ r ∈ l1, r.2 < q.2) ∧
        ∀ r ∈ stats.map (fun e => (e.1, patternScore now e.2)), r.2 ≤ q.2) ∧
    (∀ now, selectOptimalPattern now initPatternStats = some "CLASSIC_ARBITRAGE") := by
  refine ⟨fun now s => rfl, ?_, selectOptimalPattern_init⟩
  intro now stats p hsel
  unfold selectOptimalPattern at hsel
  cases hmap : stats.map (fun e => (e.1, patternScore now e.2)) with
  | nil => rw [hmap] at hsel; exact absurd hsel (by simp)
  | cons m ms =>
      rw [hmap] at hsel
      simp only [Option.some.injEq] at hsel
      obtain ⟨l1, l2, hdec, hlt, hle⟩ := pickBest_spec m ms
      refine ⟨l1, pickBest m ms, l2, hdec, hsel, hlt, ?_⟩
      intro r hr
      exact hle r hr

/-- C7 witness: the argmax/tie-break property at the concrete initial snapshot,
with its hypothesis discharged by the concrete-selection conjunct. -/
theorem C7_pattern_selection_witness :
    ∃ l1 q l2, initPatternStats.map (fun e => (e.1, patternScore 0 e.2)) = l1 ++ q :: l2 ∧
      q.1 = "CLASSIC_ARBITRAGE" ∧ (∀ r ∈ l1, r.2 < q.2) ∧
      ∀ r ∈ initPatternStats.map (fun e => (e.1, patternScore 0 e.2)), r.2 ≤ q.2 :=
  C7_pattern_selection.2.1 0 initPatternStats "CLASSIC_ARBITRAGE"
    (C7_pattern_selection.2.2 0)

theorem digitCh_toNat (d : ℕ) (h : d < 10) : (digitCh d).toNat = 48 + d := by
  interval_cases d <;> decide

theorem isDigitCh_digitCh (d : ℕ) (h : d < 10) : isDigitCh (digitCh d) = true := by
  interval_cases d <;> decide

theorem digitVal_digitCh (d : ℕ) (h : d < 10) : digitVal (digitCh d) = d := by
  interval_cases d <;> decide

theorem digitCh_ne_specials (d : ℕ) (h : d < 10) :
    digitCh d ≠ lbraceChar ∧ digitCh d ≠ lbrackChar ∧ digitCh d ≠ quoteChar ∧
    digitCh d ≠ 't' ∧ digitCh d ≠ 'f' ∧ digitCh d ≠ 'n' ∧ digitCh d ≠ minusChar ∧
    digitCh d ≠ rbrackChar ∧ digitCh d ≠ rbraceChar := by
  interval_cases d <;> refine ⟨by decide, by decide, by decide, by decide, by decide,
    by decide, by decide, by decide, by decide⟩

theorem digitList_lt (n : ℕ) : ∀ d ∈ digitList n, d < 10 := by
  unfold digitList
  split_ifs with h0
  · intro d hd
    simp at hd
    omega
  · intro d hd
    rw [List.mem_reverse] at hd
    exact Nat.digits_lt_base (by norm_num) hd

theorem digitList_ne_nil (n : ℕ) : digitList n ≠ [] := by
  unfold digitList
  split_ifs with h0
  · simp
  · rw [← List.length_pos, List.length_reverse, List.length_pos]
    exact Nat.digits_ne_nil_iff_ne_zero.2 h0

theorem printNat_eq (n : ℕ) : printNat n = (digitList n).map digitCh := by
  unfold printNat digitList
  split_ifs <;> rfl

theorem foldr_digits_eq_ofDigits (l : List ℕ) :
    l.foldr (fun d acc => acc * 10 + d) 0 = Nat.ofDigits 10 l := by
  induction l with
  | nil => simp [Nat.ofDigits]
  | cons d t ih =>
      rw [List.foldr_cons, ih, Nat.ofDigits_cons]
      ring

theorem digitList_foldl (n : ℕ) :
    (digitList n).foldl (fun a d => a * 10 + d) 0 = n := by
  unfold digitList
  split_ifs with h0
  · simp [h0]
  · rw [List.foldl_reverse]
    have : (fun (x : ℕ) (y : ℕ) => (fun a d => a * 10 + d) y x) =
        (fun d acc => acc * 10 + d) := rfl
    rw [this, foldr_digits_eq_ofDigits]
    exact_mod_cast Nat.ofDigits_digits 10 n

theorem parseDigitsAux_map (ds : List ℕ) (hds : ∀ d ∈ ds, d < 10) (acc : ℕ)
    (rest : List Char) (hrest : notNumCont rest) :
    parseDigitsAux acc (ds.map digitCh ++ rest) =
      (ds.foldl (fun a d => a * 10 + d) acc, rest) := by
  induction ds generalizing acc with
  | nil =>
      cases rest with
      | nil => rfl
      | cons c t =>
          have hc : isDigitCh c = false := hrest
          simp [parseDigitsAux, hc]
  | cons d ds ih =>
      have hd : d < 10 := hds d (by simp)
      simp only [List.map_cons, List.cons_append, parseDigitsAux,
        isDigitCh_digitCh d hd, if_true, digitVal_digitCh d hd]
      exact ih (fun x hx => hds x (by simp [hx])) (acc * 10 + d)

theorem parseDigitsAux_printNat (n : ℕ) (rest : List Char) (hrest : notNumCont rest) :
    parseDigitsAux 0 (printNat n ++ rest) = (n, rest) := by
  rw [printNat_eq, parseDigitsAux_map (digitList n) (digitList_lt n) 0 rest hrest,
    digitList_foldl]

theorem printNat_head (n : ℕ) : ∃ d ds, printNat n = digitCh d :: ds ∧ d < 10 := by
  rw [printNat_eq]
  cases hdl : digitList n with
  | nil => exact absurd hdl (digitList_ne_nil n)
  | cons d t =>
      exact ⟨d, t.map digitCh, by simp, digitList_lt n d (by simp [hdl])⟩

theorem parseNum_printInt (n : ℤ) (rest : List Char) (hrest : notNumCont rest) :
    parseNum (printInt n ++ rest) = some (n, rest) := by
  by_cases hn : n < 0
  · have hpi : printInt n = minusChar :: printNat n.natAbs := by
      unfold printInt
      rw [if_pos hn]
    obtain ⟨d, ds, hhead, hd⟩ := printNat_head n.natAbs
    have hpd := parseDigitsAux_printNat n.natAbs rest hrest
    rw [hpi, List.cons_append, hhead, List.cons_append]
    simp only [parseNum, if_pos rfl, isDigitCh_digitCh d hd, if_true]
    rw [← List.cons_append, ← hhead, hpd]
    have hcast : -((n.natAbs : ℤ)) = n := by omega
    rw [hcast]
  · have hpi : printInt n = printNat n.toNat := by
      unfold printInt
      rw [if_neg hn]
    obtain ⟨d, ds, hhead, hd⟩ := printNat_head n.toNat
    have hpd := parseDigitsAux_printNat n.toNat rest hrest
    have hne := (digitCh_ne_specials d hd).2.2.2.2.2.2.1
    rw [hpi, hhead, List.cons_append]
    simp only [parseNum, if_neg hne, isDigitCh_digitCh d hd, if_true]
    rw [← List.cons_append, ← hhead, hpd]
    have hcast : ((n.toNat : ℤ)) = n := by omega
    rw [hcast]

theorem escapeChars_cons (c : Char) (s : List Char) :
    escapeChars (c :: s) = escapeChar c ++ escapeChars s := by
  simp [escapeChars]

theorem parseStringBody_roundtrip (s rest : List Char) :
    parseStringBody (escapeChars s ++ (quoteChar :: rest)) = some (s, rest) := by
  induction s with
  | nil =>
      show parseStringBody (quoteChar :: rest) = some ([], rest)
      rw [parseStringBody.eq_def]
      dsimp only
      rw [if_pos rfl]
  | cons c s ih =>
      rw [escapeChars_cons]
      by_cases hc : c = quoteChar ∨ c = backslashChar
      · have he : escapeChar c = [backslashChar, c] := by
          unfold escapeChar
          rw [if_pos hc]
        rw [he]
        simp only [List.append_assoc, List.cons_append, List.singleton_append,
          List.nil_append]
        rw [parseStringBody.eq_def]
        dsimp only
        rw [if_neg (show ¬ backslashChar = quoteChar by decide), if_pos rfl, ih]
      · push_neg at hc
        have he : escapeChar c = [c] := by
          unfold escapeChar
          rw [if_neg (by push_neg; exact hc)]
        rw [he]
        simp only [List.append_assoc, List.cons_append, List.singleton_append,
          List.nil_append]
        rw [parseStringBody.eq_def]
        dsimp only
        rw [if_neg hc.1, if_neg hc.2, ih]

theorem serialize_head (x : Json) :
    ∃ c cs, serialize x = c :: cs ∧ c ≠ rbrackChar ∧ c ≠ rbraceChar := by
  cases x with
  | null => exact ⟨'n', _, rfl, by decide, by decide⟩
  | bool b =>
      cases b
      · exact ⟨'f', _, rfl, by decide, by decide⟩
      · exact ⟨'t', _, rfl, by decide, by decide⟩
  | num n =>
      by_cases hn : n < 0
      · refine ⟨minusChar, printNat n.natAbs, ?_, by decide, by decide⟩
        show printInt n = _
        unfold printInt
        rw [if_pos hn]
      · obtain ⟨d, ds, hhead, hd⟩ := printNat_head n.toNat
        refine ⟨digitCh d, ds, ?_, (digitCh_ne_specials d hd).2.2.2.2.2.2.2.1,
          (digitCh_ne_specials d hd).2.2.2.2.2.2.2.2⟩
        show printInt n = _
        unfold printInt
        rw [if_neg hn, hhead]
  | str s => exact ⟨quoteChar, _, rfl, by decide, by decide⟩
  | arr xs =>
      cases xs
      · exact ⟨lbrackChar, _, rfl, by decide, by decide⟩
      · exact ⟨lbrackChar, _, rfl, by decide, by decide⟩
  | obj kvs =>
      cases kvs
      · exact ⟨lbraceChar, _, rfl, by decide, by decide⟩
      · exact ⟨lbraceChar, _, rfl, by decide, by decide⟩

theorem notNumCont_arrTail (xs : List Json) (rest : List Char) :
    notNumCont (serializeArrTail xs ++ rest) := by
  cases xs
  · show isDigitCh rbrackChar = false
    decide
  · show isDigitCh commaChar = false
    decide

theorem notNumCont_objTail (kvs : List (List Char × Json)) (rest : List Char) :
    notNumCont (serializeObjTail kvs ++ rest) := by
  cases kvs
  · show isDigitCh rbraceChar = false
    decide
  · show isDigitCh commaChar = false
    decide

theorem jsonDelim_any (x : Json) (rest : List Char) (h : notNumCont rest) :
    jsonDelim x rest := by
  cases x <;> first | exact h | trivial

theorem Json.inductionOn (P : Json → Prop)
    (hnull : P Json.null) (hbool : ∀ b, P (Json.bool b)) (hnum : ∀ n, P (Json.num n))
    (hstr : ∀ s, P (Json.str s))
    (harr : ∀ xs, (∀ x ∈ xs, P x) → P (Json.arr xs))
    (hobj : ∀ kvs, (∀ kv ∈ kvs, P kv.2) → P (Json.obj kvs)) :
    ∀ x, P x
  | Json.null => hnull
  | Json.bool b => hbool b
  | Json.num n => hnum n
  | Json.str s => hstr s
  | Json.arr xs => harr xs (fun x hx =>
      Json.inductionOn P hnull hbool hnum hstr harr hobj x)
  | Json.obj kvs => hobj kvs (fun kv hkv =>
      Json.inductionOn P hnull hbool hnum hstr harr hobj kv.2)
termination_by x => sizeOf x
decreasing_by
  · have h1 := List.sizeOf_lt_of_mem hx
    simp only [Json.arr.sizeOf_spec]
    omega
  · have h1 := List.sizeOf_lt_of_mem hkv
    have h2 : sizeOf kv.2 < sizeOf kv := by
      cases kv with
      | mk a b => simp only [Prod.mk.sizeOf_spec]; omega
    simp only [Json.obj.sizeOf_spec]
    omega

theorem parseElems_roundtrip (x0 : Json) (xs : List Json)
    (ih : ∀ y ∈ x0 :: xs, ∀ fuel rest, jsonCost y ≤ fuel → jsonDelim y rest →
      parseVal fuel (serialize y ++ rest) = some (y, rest)) :
    ∀ fuel rest, jsonCostElems (x0 :: xs) ≤ fuel →
      parseElems fuel (serialize x0 ++ (serializeArrTail xs ++ rest)) =
        some (x0 :: xs, rest) := by
  induction xs generalizing x0 with
  | nil =>
      intro fuel rest hfuel
      have hc : jsonCostElems (x0 :: []) = 1 + jsonCost x0 + 0 := rfl
      rw [hc] at hfuel
      obtain ⟨g, rfl⟩ : ∃ g, fuel = g + 1 := ⟨fuel - 1, by omega⟩
      have hval := ih x0 (List.mem_cons_self x0 []) g (serializeArrTail [] ++ rest)
        (by omega) (jsonDelim_any _ _ (notNumCont_arrTail [] rest))
      rw [parseElems.eq_def]
      try dsimp only
      rw [hval]
      try dsimp only
      rw [show serializeArrTail [] = [rbrackChar] from rfl, List.singleton_append]
      try dsimp only
      rw [if_neg (show ¬ rbrackChar = commaChar by decide), if_pos rfl]
  | cons x1 xs2 ihlist =>
      intro fuel rest hfuel
      have hc : jsonCostElems (x0 :: x1 :: xs2) =
          1 + jsonCost x0 + jsonCostElems (x1 :: xs2) := rfl
      rw [hc] at hfuel
      have hc2 : jsonCostElems (x1 :: xs2) = 1 + jsonCost x1 + jsonCostElems xs2 := rfl
      obtain ⟨g, rfl⟩ : ∃ g, fuel = g + 1 := ⟨fuel - 1, by omega⟩
      have hval := ih x0 (List.mem_cons_self x0 (x1 :: xs2)) g
        (serializeArrTail (x1 :: xs2) ++ rest)
        (by omega) (jsonDelim_any _ _ (notNumCont_arrTail (x1 :: xs2) rest))
      rw [parseElems.eq_def]
      try dsimp only
      rw [hval]
      try dsimp only
      rw [show serializeArrTail (x1 :: xs2) =
        commaChar :: (serialize x1 ++ serializeArrTail xs2) from rfl]
      simp only [List.cons_append, List.append_assoc, List.nil_append]
      try dsimp only
      rw [if_pos trivial]
      have hih : ∀ y ∈ x1 :: xs2, ∀ fuel rest, jsonCost y ≤ fuel → jsonDelim y rest →
          parseVal fuel (serialize y ++ rest) = some (y, rest) :=
        fun y hy => ih y (List.mem_cons_of_mem x0 hy)
      rw [ihlist x1 hih g rest (by omega)]

theorem parseMembers_roundtrip (kv0 : List Char × Json) (kvs : List (List Char × Json))
    (ih : ∀ kv ∈ kv0 :: kvs, ∀ fuel rest, jsonCost kv.2 ≤ fuel → jsonDelim kv.2 rest →
      parseVal fuel (serialize kv.2 ++ rest) = some (kv.2, rest)) :
    ∀ fuel rest, jsonCostMembers (kv0 :: kvs) ≤ fuel →
      parseMembers fuel (serializeMember kv0 ++ (serializeObjTail kvs ++ rest)) =
        some (kv0 :: kvs, rest) := by
  induction kvs generalizing kv0 with
  | nil =>
      intro fuel rest hfuel
      have hc : jsonCostMembers (kv0 :: []) = 1 + jsonCost kv0.2 + 0 := rfl
      rw [hc] at hfuel
      obtain ⟨g, rfl⟩ : ∃ g, fuel = g + 1 := ⟨fuel - 1, by omega⟩
      obtain ⟨k, v⟩ := kv0
      rw [show serializeMember (k, v) =
        quoteChar :: ((escapeChars k ++ [quoteChar]) ++ (colonChar :: serialize v)) from rfl]
      simp only [List.cons_append, List.append_assoc, List.singleton_append, List.nil_append]
      rw [parseMembers.eq_def]
      try dsimp only
      rw [if_pos rfl]
      rw [parseStringBody_roundtrip]
      try dsimp only
      rw [if_pos rfl]
      have hval := ih (k, v) (List.mem_cons_self _ []) g (serializeObjTail [] ++ rest)
        (by omega) (jsonDelim_any _ _ (notNumCont_objTail [] rest))
      rw [hval]
      try dsimp only
      rw [show serializeObjTail [] = [rbraceChar] from rfl, List.singleton_append]
      try dsimp only
      rw [if_neg (show ¬ rbraceChar = commaChar by decide), if_pos rfl]
  | cons kv1 kvs2 ihlist =>
      intro fuel rest hfuel
      have hc : jsonCostMembers (kv0 :: kv1 :: kvs2) =
          1 + jsonCost kv0.2 + jsonCostMembers (kv1 :: kvs2) := rfl
      rw [hc] at hfuel
      have hc2 : jsonCostMembers (kv1 :: kvs2) =
          1 + jsonCost kv1.2 + jsonCostMembers kvs2 := rfl
      obtain ⟨g, rfl⟩ : ∃ g, fuel = g + 1 := ⟨fuel - 1, by omega⟩
      obtain ⟨k, v⟩ := kv0
      rw [show serializeMember (k, v) =
        quoteChar :: ((escapeChars k ++ [quoteChar]) ++ (colonChar :: serialize v)) from rfl]
      simp only [List.cons_append, List.append_assoc, List.singleton_append, List.nil_append]
      rw [parseMembers.eq_def]
      try dsimp only
      rw [if_pos rfl]
      rw [parseStringBody_roundtrip]
      try dsimp only
      rw [if_pos rfl]
      have hval := ih (k, v) (List.mem_cons_self _ _) g (serializeObjTail (kv1 :: kvs2) ++ rest)
        (by omega) (jsonDelim_any _ _ (notNumCont_objTail (kv1 :: kvs2) rest))
      rw [hval]
      try dsimp only
      rw [show serializeObjTail (kv1 :: kvs2) =
        commaChar :: (serializeMember kv1 ++ serializeObjTail kvs2) from rfl]
      simp only [List.cons_append, List.append_assoc, List.nil_append]
      try dsimp only
      rw [if_pos trivial]
      have hih : ∀ kv ∈ kv1 :: kvs2, ∀ fuel rest, jsonCost kv.2 ≤ fuel →
          jsonDelim kv.2 rest → parseVal fuel (serialize kv.2 ++ rest) = some (kv.2, rest) :=
        fun kv hkv => ih kv (List.mem_cons_of_mem (k, v) hkv)
      rw [ihlist kv1 hih g rest (by omega)]

theorem parseVal_roundtrip : ∀ x : Json, ∀ fuel rest, jsonCost x ≤ fuel →
    jsonDelim x rest → parseVal fuel (serialize x ++ rest) = some (x, rest) := by
  refine Json.inductionOn _ ?_ ?_ ?_ ?_ ?_ ?_
  · intro fuel rest hf hd
    obtain ⟨g, rfl⟩ : ∃ g, fuel = g + 1 := ⟨fuel - 1, by
      have h1 : jsonCost Json.null = 1 := rfl
      omega⟩
    rfl
  · intro b fuel rest hf hd
    obtain ⟨g, rfl⟩ : ∃ g, fuel = g + 1 := ⟨fuel - 1, by
      have h1 : jsonCost (Json.bool b) = 1 := rfl
      omega⟩
    cases b <;> rfl
  · intro n fuel rest hf hd
    obtain ⟨g, rfl⟩ : ∃ g, fuel = g + 1 := ⟨fuel - 1, by
      have h1 : jsonCost (Json.num n) = 1 := rfl
      omega⟩
    by_cases hn : n < 0
    · have hpi : printInt n = minusChar :: printNat n.natAbs := by
        unfold printInt
        rw [if_pos hn]
      rw [show serialize (Json.num n) = printInt n from rfl, hpi, List.cons_append]
      rw [parseVal.eq_def]
      try dsimp only
      rw [if_neg (by decide), if_neg (by decide), if_neg (by decide), if_neg (by decide),
        if_neg (by decide), if_neg (by decide)]
      rw [← List.cons_append, ← hpi, parseNum_printInt n rest hd]
    · obtain ⟨d, ds, hhead, hdlt⟩ := printNat_head n.toNat
      have hpi : printInt n = digitCh d :: ds := by
        unfold printInt
        rw [if_neg hn, hhead]
      have hne := digitCh_ne_specials d hdlt
      rw [show serialize (Json.num n) = printInt n from rfl, hpi, List.cons_append]
      rw [parseVal.eq_def]
      try dsimp only
      rw [if_neg hne.1, if_neg hne.2.1, if_neg hne.2.2.1, if_neg hne.2.2.2.1,
        if_neg hne.2.2.2.2.1, if_neg hne.2.2.2.2.2.1]
      rw [← List.cons_append, ← hpi, parseNum_printInt n rest hd]
  · intro s fuel rest hf hd
    obtain ⟨g, rfl⟩ : ∃ g, fuel = g + 1 := ⟨fuel - 1, by
      have h1 : jsonCost (Json.str s) = 1 := rfl
      omega⟩
    rw [show serialize (Json.str s) = quoteChar :: (escapeChars s ++ [quoteChar]) from rfl,
      List.cons_append]
    rw [parseVal.eq_def]
    try dsimp only
    rw [if_neg (by decide), if_neg (by decide), if_pos rfl]
    simp only [List.append_assoc, List.singleton_append]
    rw [parseStringBody_roundtrip]
  · intro xs hxs fuel rest hf hd
    cases xs with
    | nil =>
        obtain ⟨g, rfl⟩ : ∃ g, fuel = g + 1 := ⟨fuel - 1, by
          have h1 : jsonCost (Json.arr []) = 1 := rfl
          omega⟩
        rfl
    | cons x0 xs2 =>
        have h1 : jsonCost (Json.arr (x0 :: xs2)) = 1 + jsonCostElems (x0 :: xs2) := rfl
        have h2 : jsonCostElems (x0 :: xs2) = 1 + jsonCost x0 + jsonCostElems xs2 := rfl
        obtain ⟨g, rfl⟩ : ∃ g, fuel = g + 1 := ⟨fuel - 1, by omega⟩
        obtain ⟨c, cs, hser, hc1, hc2⟩ := serialize_head x0
        rw [show serialize (Json.arr (x0 :: xs2)) =
          lbrackChar :: (serialize x0 ++ serializeArrTail xs2) from rfl, List.cons_append]
        rw [parseVal.eq_def]
        try dsimp only
        rw [if_neg (by decide), if_pos rfl]
        rw [List.append_assoc, hser, List.cons_append]
        try dsimp only
        rw [if_neg hc1]
        rw [← List.cons_append, ← hser]
        rw [parseElems_roundtrip x0 xs2 hxs g rest (by omega)]
  · intro kvs hkvs fuel rest hf hd
    cases kvs with
    | nil =>
        obtain ⟨g, rfl⟩ : ∃ g, fuel = g + 1 := ⟨fuel - 1, by
          have h1 : jsonCost (Json.obj []) = 1 := rfl
          omega⟩
        rfl
    | cons kv0 kvs2 =>
        have h1 : jsonCost (Json.obj (kv0 :: kvs2)) = 1 + jsonCostMembers (kv0 :: kvs2) := rfl
        have h2 : jsonCostMembers (kv0 :: kvs2) = 1 + jsonCost kv0.2 + jsonCostMembers kvs2 := rfl
        obtain ⟨g, rfl⟩ : ∃ g, fuel = g + 1 := ⟨fuel - 1, by omega⟩
        have hmser : serializeMember kv0 =
            quoteChar :: ((escapeChars kv0.1 ++ [quoteChar]) ++ (colonChar :: serialize kv0.2)) := by
          obtain ⟨k, v⟩ := kv0
          rfl
        rw [show serialize (Json.obj (kv0 :: kvs2)) =
          lbraceChar :: (serializeMember kv0 ++ serializeObjTail kvs2) from rfl, List.cons_append]
        rw [parseVal.eq_def]
        try dsimp only
        rw [if_pos rfl]
        rw [List.append_assoc, hmser, List.cons_append]
        try dsimp only
        rw [if_neg (by decide)]
        rw [← List.cons_append, ← hmser]
        rw [parseMembers_roundtrip kv0 kvs2 hkvs g rest (by omega)]

theorem jsonCostElems_le (xs : List Json)
    (h : ∀ x ∈ xs, jsonCost x ≤ (serialize x).length) :
    jsonCostElems xs + 1 ≤ (serializeArrTail xs).length := by
  induction xs with
  | nil =>
      have e1 : jsonCostElems ([] : List Json) = 0 := rfl
      have e2 : (serializeArrTail ([] : List Json)).length = 1 := rfl
      omega
  | cons x xs ih =>
      have e1 : jsonCostElems (x :: xs) = 1 + jsonCost x + jsonCostElems xs := rfl
      have e2 : (serializeArrTail (x :: xs)).length =
          1 + ((serialize x).length + (serializeArrTail xs).length) := by
        show (commaChar :: (serialize x ++ serializeArrTail xs)).length = _
        simp [List.length_append]
        omega
      have hx := h x (List.mem_cons_self x xs)
      have hxs := ih (fun y hy => h y (List.mem_cons_of_mem x hy))
      omega

theorem jsonCostMembers_le (kvs : List (List Char × Json))
    (h : ∀ kv ∈ kvs, jsonCost kv.2 ≤ (serialize kv.2).length) :
    jsonCostMembers kvs + 1 ≤ (serializeObjTail kvs).length := by
  induction kvs with
  | nil =>
      have e1 : jsonCostMembers ([] : List (List Char × Json)) = 0 := rfl
      have e2 : (serializeObjTail ([] : List (List Char × Json))).length = 1 := rfl
      omega
  | cons kv kvs ih =>
      have e1 : jsonCostMembers (kv :: kvs) = 1 + jsonCost kv.2 + jsonCostMembers kvs := rfl
      have e2 : (serializeObjTail (kv :: kvs)).length =
          1 + ((serializeMember kv).length + (serializeObjTail kvs).length) := by
        show (commaChar :: (serializeMember kv ++ serializeObjTail kvs)).length = _
        simp [List.length_append]
        omega
      have e3 : (serializeMember kv).length =
          1 + (((escapeChars kv.1).length + 1) + (1 + (serialize kv.2).length)) := by
        obtain ⟨k, v⟩ := kv
        show (quoteChar :: ((escapeChars k ++ [quoteChar]) ++ (colonChar :: serialize v))).length = _
        simp [List.length_append]
        omega
      have hx := h kv (List.mem_cons_self kv kvs)
      have hxs := ih (fun y hy => h y (List.mem_cons_of_mem kv hy))
      omega

theorem jsonCost_le_length : ∀ x : Json, jsonCost x ≤ (serialize x).length := by
  refine Json.inductionOn _ ?_ ?_ ?_ ?_ ?_ ?_
  · obtain ⟨c, cs, hser, _, _⟩ := serialize_head Json.null
    rw [hser]
    have : jsonCost Json.null = 1 := rfl
    simp [this]
  · intro b
    obtain ⟨c, cs, hser, _, _⟩ := serialize_head (Json.bool b)
    rw [hser]
    have : jsonCost (Json.bool b) = 1 := rfl
    simp [this]
  · intro n
    obtain ⟨c, cs, hser, _, _⟩ := serialize_head (Json.num n)
    rw [hser]
    have : jsonCost (Json.num n) = 1 := rfl
    simp [this]
  · intro s
    obtain ⟨c, cs, hser, _, _⟩ := serialize_head (Json.str s)
    rw [hser]
    have : jsonCost (Json.str s) = 1 := rfl
    simp [this]
  · intro xs hxs
    cases xs with
    | nil =>
        have e1 : jsonCost (Json.arr []) = 1 := rfl
        have e2 : (serialize (Json.arr [])).length = 2 := rfl
        omega
    | cons x0 xs2 =>
        have e1 : jsonCost (Json.arr (x0 :: xs2)) = jsonCostElems (x0 :: xs2) + 1 := by
          show 1 + jsonCostElems (x0 :: xs2) = _
          omega
        have e2 : (serialize (Json.arr (x0 :: xs2))).length =
            (serializeArrTail (x0 :: xs2)).length := by
          show (lbrackChar :: (serialize x0 ++ serializeArrTail xs2)).length =
            (commaChar :: (serialize x0 ++ serializeArrTail xs2)).length
          simp
        rw [e1, e2]
        exact jsonCostElems_le (x0 :: xs2) hxs
  · intro kvs hkvs
    cases kvs with
    | nil =>
        have e1 : jsonCost (Json.obj []) = 1 := rfl
        have e2 : (serialize (Json.obj [])).length = 2 := rfl
        omega
    | cons kv0 kvs2 =>
        have e1 : jsonCost (Json.obj (kv0 :: kvs2)) = jsonCostMembers (kv0 :: kvs2) + 1 := by
          show 1 + jsonCostMembers (kv0 :: kvs2) = _
          omega
        have e2 : (serialize (Json.obj (kv0 :: kvs2))).length =
            (serializeObjTail (kv0 :: kvs2)).length := by
          show (lbraceChar :: (serializeMember kv0 ++ serializeObjTail kvs2)).length =
            (commaChar :: (serializeMember kv0 ++ serializeObjTail kvs2)).length
          simp
        rw [e1, e2]
        exact jsonCostMembers_le (kv0 :: kvs2) hkvs

theorem parseJson_serialize (x : Json) : parseJson (serialize x) = some x := by
  unfold parseJson
  have hfuel : jsonCost x ≤ (serialize x).length + 1 :=
    le_trans (jsonCost_le_length x) (by omega)
  have hd : jsonDelim x [] := by
    cases x <;> trivial
  have h := parseVal_roundtrip x ((serialize x).length + 1) [] hfuel hd
  rw [List.append_nil] at h
  rw [h]

/-- C9: retrieving a stored record immediately after storing it under its hash
returns a record equal to the one stored: the persisted format round-trips
(`JSON.parse` of `JSON.stringify` is the identity on the modelled JSON value
space, and re-serializing the parsed document reproduces the persisted bytes). -/
theorem C9_store_roundtrip (fs : FileStore) (h : ℕ) (x : Json) :
    fileStoreRetrieve (fileStorePut fs h x) h = some x ∧
    parseJson (serialize x) = some x ∧
    ∀ y, parseJson (serialize x) = some y → serialize y = serialize x := by
  have hp := parseJson_serialize x
  refine ⟨?_, hp, ?_⟩
  · unfold fileStoreRetrieve fileStorePut
    simp [hp]
  · intro y hy
    rw [hp] at hy
    rw [Option.some.inj hy]

/-- C9 witness: the store/retrieve roundtrip evaluated at a concrete record,
with the re-serialization conjunct discharged at its own parse result. -/
theorem C9_store_roundtrip_witness :
    fileStoreRetrieve (fileStorePut emptyFileStore 7 (Json.obj [(['a'], Json.num (-12))])) 7 =
      some (Json.obj [(['a'], Json.num (-12))]) ∧
    serialize (Json.obj [(['a'], Json.num (-12))]) =
      serialize (Json.obj [(['a'], Json.num (-12))]) :=
  ⟨(C9_store_roundtrip emptyFileStore 7 (Json.obj [(['a'], Json.num (-12))])).1,
   (C9_store_roundtrip emptyFileStore 7 (Json.obj [(['a'], Json.num (-12))])).2.2
     (Json.obj [(['a'], Json.num (-12))])
     (C9_store_roundtrip emptyFileStore 7 (Json.obj [(['a'], Json.num (-12))])).2.1⟩
